import Mathlib

/-!
Verification development for the Auto-PHSSCW validation pipeline
(`src/validation/run_analysis.py`, `src/validation/export_images.py`,
`src/validation/cleanup.py`).

Numbers are modelled by `ℚ`; Python `None` and exceptions in value
positions are modelled by `Option`.  Each definition carries a comment
naming the source function it embeds.
-/

/-! ## Eigenvalue extraction (`extract_buckling_results`, run_analysis.py 839-991) -/

/-- Noise floor `1e-6` used by every extraction tier. -/
def noiseFloor : ℚ := 1/1000000

/-- Tier-1 acceptance test for the scalar `frame.frameValue` of frame `i`
(run_analysis.py lines 869-877): accept when the value is nonzero, above the
noise floor, and not rejected by the frame-index heuristic
`abs(eigenvalue - float(i)) < 0.1 or abs(eigenvalue) < 100.0`. -/
def tier1Accept (i : ℕ) (v : ℚ) : Bool :=
  if v ≠ 0 ∧ noiseFloor < |v| then
    if |v - (i : ℚ)| < 1/10 ∨ |v| < 100 then false else true
  else false

/-- Tier-1 loop `for i in range(1, len(frames))` (run_analysis.py 866-880).
`frames.getD i none = none` models both a `None`/zero-less frame value and the
`except: pass` around the query; accepted frames contribute `(i, value)`. -/
def tier1Extract (frames : List (Option ℚ)) : List (ℕ × ℚ) :=
  (List.range frames.length).filterMap fun i =>
    if i = 0 then none
    else
      match frames.getD i none with
      | none => none
      | some v => if tier1Accept i v then some (i, v) else none

/-- Tier-2 loop over `frame.description` (run_analysis.py 883-895); the input
is the per-frame result of the regex `Eigenvalue\s*=\s*(number)` (`none` when
the description has no match); values pass when `abs(eigen_val) > 1e-6`. -/
def tier2Extract (descs : List (Option ℚ)) : List (ℕ × ℚ) :=
  (List.range descs.length).filterMap fun i =>
    if i = 0 then none
    else
      match descs.getD i none with
      | none => none
      | some v => if noiseFloor < |v| then some (i, v) else none

/-- Batch plausibility check (run_analysis.py 903-909): the batch is suspicious
unless some pair has `abs(eigen) > 100.0 and abs(eigen - float(mode)) > 10.0`. -/
def batchSuspicious (evs : List (ℕ × ℚ)) : Bool :=
  evs.all fun mv => !(decide (100 < |mv.2|) && decide (10 < |mv.2 - (mv.1 : ℚ)|))

/-- Discard step (run_analysis.py 901-912): a nonempty suspicious batch is
cleared (`eigenvalues = []`), otherwise the batch is kept unchanged. -/
def validateBatch (evs : List (ℕ × ℚ)) : List (ℕ × ℚ) :=
  if evs.isEmpty then evs
  else if batchSuspicious evs then [] else evs

/-- One lexed line of the `.dat` solver log (run_analysis.py 934-963).  The
string-level tests are lexed into tokens: `header` is a line containing both
`MODE NO` and `EIGENVALUE`; `entry m v` is a line matched by
`^\s*(\d+)\s+([0-9Ee\+\-\.]+)`; `term` is a line containing `THE ANALYSIS` or
`ANALYSIS COMPLETE`; `other` is any other (including blank) line. -/
inductive DatLine
  | header
  | entry (mode : ℕ) (value : ℚ)
  | term
  | other
  deriving DecidableEq, Repr

/-- Tier-3 `.dat` parsing loop (run_analysis.py 934-963): the header line turns
the in-section flag on; inside the section an entry line with
`abs(eigen_val) > 1e-6` is appended, a terminator line breaks, anything else is
skipped.  The header test runs on every line, also inside the section. -/
def datParse : List DatLine → Bool → List (ℕ × ℚ)
  | [], _ => []
  | .header :: rest, _ => datParse rest true
  | .entry m v :: rest, inSec =>
      if inSec then
        if noiseFloor < |v| then (m, v) :: datParse rest inSec
        else datParse rest inSec
      else datParse rest inSec
  | .term :: rest, inSec => if inSec then [] else datParse rest inSec
  | .other :: rest, inSec => datParse rest inSec

/-- Result of `extract_buckling_results`: either a CSV table of
`(mode, eigenvalue)` rows or the `buckling_extract_warning.txt` marker
(run_analysis.py 978-991). -/
inductive EigenOutput
  | table (evs : List (ℕ × ℚ))
  | noEigenvaluesMarker
  deriving DecidableEq, Repr

/-- Extraction pipeline of `extract_buckling_results` (run_analysis.py
855-991): tier 1, then tier 2 if tier 1 is empty, then the batch discard,
then the `.dat` fallback, then CSV or the warning marker. -/
def extract_buckling_results (frames descs : List (Option ℚ))
    (dat : List DatLine) : EigenOutput :=
  let t1 := tier1Extract frames
  let t12 := if t1.isEmpty then tier2Extract descs else t1
  let validated := validateBatch t12
  let final := if validated.isEmpty then datParse dat false else validated
  if final.isEmpty then .noEigenvaluesMarker else .table final

/-! ## Load-case registry and `get_enabled_cases` (run_analysis.py 255-339) -/

/-- Riks control record of a load case (run_analysis.py 255-301). -/
structure RiksControl where
  dof : ℕ
  dir : String
  maxDisp : ℚ
  sign : ℤ
  deriving DecidableEq, Repr

/-- One entry of the `LOAD_CASES` table (run_analysis.py 255-301). -/
structure LoadCase where
  name : String
  description : String
  bucklingRef : ℚ × ℚ × ℚ
  riksControl : RiksControl
  hasAxial : Bool := false
  deriving DecidableEq, Repr

def LC1_Axial : LoadCase :=
  { name := "LC1_Axial", description := "Pure Axial Compression",
    bucklingRef := (0, 0, -1),
    riksControl := { dof := 3, dir := "Z", maxDisp := 30, sign := -1 } }

def LC2_Axial_ShearY : LoadCase :=
  { name := "LC2_Axial_ShearY", description := "Axial + Shear-Y (in-plane)",
    bucklingRef := (0, 1, -1/2),
    riksControl := { dof := 2, dir := "Y", maxDisp := 60, sign := 1 },
    hasAxial := true }

def LC3_Axial_ShearX : LoadCase :=
  { name := "LC3_Axial_ShearX", description := "Axial + Shear-X (out-of-plane)",
    bucklingRef := (1, 0, -1/2),
    riksControl := { dof := 1, dir := "X", maxDisp := 60, sign := 1 },
    hasAxial := true }

def LC4_ShearY : LoadCase :=
  { name := "LC4_ShearY", description := "Pure Shear-Y",
    bucklingRef := (0, 1, 0),
    riksControl := { dof := 2, dir := "Y", maxDisp := 60, sign := 1 } }

def LC5_ShearX : LoadCase :=
  { name := "LC5_ShearX", description := "Pure Shear-X (out-of-plane)",
    bucklingRef := (1, 0, 0),
    riksControl := { dof := 1, dir := "X", maxDisp := 30, sign := 1 } }

def LC6_Axial_ShearXY : LoadCase :=
  { name := "LC6_Axial_ShearXY", description := "Axial + Biaxial shear (X+Y)",
    bucklingRef := (1, 1, -1/2),
    riksControl := { dof := 2, dir := "Y", maxDisp := 30, sign := 1 },
    hasAxial := true }

def LC7_AxialOnly_High : LoadCase :=
  { name := "LC7_AxialOnly_High", description := "High axial compression (sensitivity)",
    bucklingRef := (0, 0, -2),
    riksControl := { dof := 3, dir := "Z", maxDisp := 50, sign := -1 } }

/-- The `LOAD_CASES` dict in insertion order (run_analysis.py 255-301). -/
def LOAD_CASES : List (String × LoadCase) :=
  [("LC1_Axial", LC1_Axial), ("LC2_Axial_ShearY", LC2_Axial_ShearY),
   ("LC3_Axial_ShearX", LC3_Axial_ShearX), ("LC4_ShearY", LC4_ShearY),
   ("LC5_ShearX", LC5_ShearX), ("LC6_Axial_ShearXY", LC6_Axial_ShearXY),
   ("LC7_AxialOnly_High", LC7_AxialOnly_High)]

def lookupLoadCase (k : String) : Option LoadCase :=
  (LOAD_CASES.find? fun e => e.1 == k).map (·.2)

/-- Character filter for `key.replace('_', '')` (run_analysis.py 313). -/
def removeUnderscores (s : String) : String :=
  ⟨s.data.filter fun c => c ≠ '_'⟩

/-- One selector token resolution (run_analysis.py 310-314): direct lookup,
then the underscore-stripped variant. -/
def resolveToken (k : String) : Option LoadCase :=
  match lookupLoadCase k with
  | some c => some c
  | none => lookupLoadCase (removeUnderscores k)

/-- Inputs of `get_enabled_cases` as read from the parameter dict: the
selector string (`none` models a missing key or a falsy value, which the
guard `if 'enableCases' in params and params['enableCases']` skips) and the
six numeric load-factor fields accessed by `params.get(..., 0.0)`. -/
structure CaseSelInput where
  enableCases : Option String := none
  cf1f : Option ℚ := none
  cf2f : Option ℚ := none
  cf3f : Option ℚ := none
  FrefX : Option ℚ := none
  FrefY : Option ℚ := none
  FrefZ : Option ℚ := none
  deriving Repr

/-- Python `params.get(a, 0.0) or params.get(b, 0.0) or 0.0`
(run_analysis.py 320-322): `0.0` is falsy. -/
def cfValue (primary fallback : Option ℚ) : ℚ :=
  if primary.getD 0 ≠ 0 then primary.getD 0 else fallback.getD 0

/-- Load-factor fallback inference of `get_enabled_cases`
(run_analysis.py 318-339), with the source's `0.1` thresholds. -/
def inferCasesFromFactors (p : CaseSelInput) : List LoadCase :=
  let cf1 := cfValue p.cf1f p.FrefX
  let cf2 := cfValue p.cf2f p.FrefY
  let cf3 := cfValue p.cf3f p.FrefZ
  if 1/10 < |cf3| ∧ |cf2| < 1/10 ∧ |cf1| < 1/10 then [LC1_Axial]
  else if 1/10 < |cf2| ∧ |cf3| < 1/10 ∧ |cf1| < 1/10 then [LC4_ShearY]
  else if 1/10 < |cf3| ∧ 1/10 < |cf2| then [LC2_Axial_ShearY]
  else if 1/10 < |cf3| ∧ 1/10 < |cf1| then [LC3_Axial_ShearX]
  else [LC1_Axial]

/-- `get_enabled_cases` (run_analysis.py 303-339): resolve the comma-split,
stripped selector tokens against `LOAD_CASES`; when the selector is missing,
falsy, or resolves to no entry, fall back to the load-factor inference. -/
def get_enabled_cases (p : CaseSelInput) : List LoadCase :=
  match p.enableCases with
  | some s =>
      let cases := ((s.splitOn ",").map String.trim).filterMap resolveToken
      if cases.isEmpty then inferCasesFromFactors p else cases
  | none => inferCasesFromFactors p

/-! ## Orchestrator loop and summary (run_analysis.py 1424-1550) -/

/-- Per-case result dict produced by `extract_riks_results`
(run_analysis.py 1244-1249); `caseName` is the `'case'` entry. -/
structure RiksResult where
  caseName : String
  max_U : ℚ
  max_RF : ℚ
  max_LPF : ℚ
  deriving DecidableEq, Repr

/-- The per-case `try` body of `run_multicase_analysis` (run_analysis.py
1443-1487): `solve c = some (u, rf, lpf)` models a completed case (including
zeroed extraction fallbacks), `none` models an exception caught by the
`except ... continue` handler.  Failed cases append nothing to
`all_results`; the loop continues with the next case. -/
def run_multicase_results (cases : List LoadCase)
    (solve : LoadCase → Option (ℚ × ℚ × ℚ)) : List RiksResult :=
  cases.filterMap fun c =>
    (solve c).map fun r =>
      { caseName := c.name, max_U := r.1, max_RF := r.2.1, max_LPF := r.2.2 }

/-- The `Case` column of the summary's "Analysis Results" block
(`write_summary`, run_analysis.py 1539-1547): one row per entry of
`all_results`, in order. -/
def summaryCaseColumn (results : List RiksResult) : List String :=
  results.map (·.caseName)

/-! ## End boundary conditions (`_fixity_to_dofs`, `apply_end_bcs`,
run_analysis.py 661-702) -/

/-- Abaqus `SET`/`UNSET` flag of one degree of freedom. -/
inductive BCDof
  | SET
  | UNSET
  deriving DecidableEq, Repr

/-- The six displacement/rotation flags passed to `DisplacementBC`. -/
structure DofSpec where
  u1 : BCDof
  u2 : BCDof
  u3 : BCDof
  ur1 : BCDof
  ur2 : BCDof
  ur3 : BCDof
  deriving DecidableEq, Repr

/-- `_fixity_to_dofs` (run_analysis.py 661-677): dispatch on
`str(fixity).upper().strip()` with a FIXED default. -/
def _fixity_to_dofs (fixity : String) : DofSpec :=
  let fx := fixity.toUpper.trim
  if fx = "FIXED" then ⟨.SET, .SET, .SET, .SET, .SET, .SET⟩
  else if fx = "PINNED" then ⟨.SET, .SET, .SET, .UNSET, .UNSET, .SET⟩
  else if fx = "ROLLER_X" then ⟨.UNSET, .SET, .SET, .UNSET, .UNSET, .UNSET⟩
  else if fx = "ROLLER_Y" then ⟨.SET, .UNSET, .SET, .UNSET, .UNSET, .UNSET⟩
  else if fx = "ROLLER_Z" then ⟨.SET, .SET, .UNSET, .UNSET, .UNSET, .UNSET⟩
  else if fx = "ROTATION_FIXED" then ⟨.UNSET, .UNSET, .UNSET, .SET, .SET, .SET⟩
  else ⟨.SET, .SET, .SET, .SET, .SET, .SET⟩

/-- Modelled from the spec and the in-source comments: the top-end override of
`apply_end_bcs` (run_analysis.py 679-702) as intended.  In the shipped file
the line `dof_top['u3'] = UNSET` (line 693) is indented one level too deep,
which makes the whole module fail to parse (`IndentationError`); the comment
above it states the intent ("ensure the top axial displacement U3 is not
constrained").  This embedding is the dedented intent: after the fixity
table, `u1` is forced to SET and `u3` is forced to UNSET. -/
def apply_end_bcs_top (endFixityTop : String) : DofSpec :=
  let d := _fixity_to_dofs endFixityTop
  { d with u1 := .SET, u3 := .UNSET }

/-- Bottom-end boundary conditions of `apply_end_bcs` (run_analysis.py 688,
702): the fixity table is applied unmodified. -/
def apply_end_bcs_bot (endFixityBot : String) : DofSpec :=
  _fixity_to_dofs endFixityBot

/-! ## Workspace cleanup (cleanup.py, run_analysis.py 77-78 and 1475-1481) -/

/-- Module flag `KEEP_WORK_FILES = True` (run_analysis.py 78). -/
def KEEP_WORK_FILES : Bool := true

/-- Module-level fallback of cleanup.py lines 9-12: the import of the main
script fails, so the module default is `False`. -/
def cleanupModuleKeepDefault : Bool := false

/-- `cleanup_case_work_dir` (cleanup.py 14-68) over an abstract filesystem:
`fs` is the set of existing directories; the result is (removed?, new fs).
With `keep_work_files` true the function returns `False` and touches
nothing; otherwise the work dir is removed only when both CSVs exist and
enough PNGs are present. -/
def cleanup_case_work_dir (fs : List String) (caseWorkDir : String)
    (csvOk : Bool) (pngCount minPngCount : ℕ) (keep : Option Bool) :
    Bool × List String :=
  let keepWork := keep.getD cleanupModuleKeepDefault
  if keepWork then (false, fs)
  else if !csvOk then (false, fs)
  else if pngCount < minPngCount then (false, fs)
  else if caseWorkDir ∈ fs then (true, fs.erase caseWorkDir)
  else (false, fs)

/-- Work-directory lifecycle of one loop iteration of
`run_multicase_analysis` (run_analysis.py 1446-1481): `_ensure_dir` creates
the scratch dir, and cleanup runs only under `if not KEEP_WORK_FILES`, with
`keep_work_files=KEEP_WORK_FILES` passed through. -/
def caseWorkDirStep (fs : List String) (wd : String)
    (csvOk : Bool) (pngCount : ℕ) : List String :=
  let fs1 := if wd ∈ fs then fs else wd :: fs
  if KEEP_WORK_FILES = false then
    (cleanup_case_work_dir fs1 wd csvOk pngCount 1 (some KEEP_WORK_FILES)).2
  else fs1

/-- The whole multi-case loop's effect on the scratch tree: one
`caseWorkDirStep` per enabled load case. -/
def multicaseWorkDirs (fs : List String)
    (cases : List (String × Bool × ℕ)) : List String :=
  cases.foldl (fun a c => caseWorkDirStep a c.1 c.2.1 c.2.2) fs

/-! ## Peak LPF frame selection (`find_peak_lpf_frame_index`,
export_images.py 295-433) -/

/-- `LPF_DROP_RATIO = 0.8` (export_images.py 70). -/
def dropFrac : ℚ := 4/5

/-- `LPF_DROP_PERSIST_N = 3` (export_images.py 71). -/
def persistN : ℕ := 3

/-- `LPF_MIN_PEAK_FRAC = 0.6` (export_images.py 72). -/
def minPeakFrac : ℚ := 3/5

/-- `LPF_SMOOTH_WINDOW = 3` (export_images.py 73). -/
def smoothWinDefault : ℕ := 3

/-- Dominant-sign selection (export_images.py 336-338):
`1.0 if y_max >= abs(y_min) else -1.0`. -/
def signRef (y : List ℚ) : ℚ :=
  if |(y.min?).getD 0| ≤ (y.max?).getD 0 then 1 else -1

/-- Centered moving average (export_images.py 342-351): applied only when
`smooth_win > 1 and len(y_eff) >= smooth_win`; window `[max(0, i-half),
min(len, i+half+1))`. -/
def smoothSeries (w : ℕ) (y : List ℚ) : List ℚ :=
  if 1 < w ∧ w ≤ y.length then
    (List.range y.length).map fun i =>
      let a := i - w / 2
      let b := min y.length (i + w / 2 + 1)
      ((y.drop a).take (b - a)).sum / ((b - a : ℕ) : ℚ)
  else y

/-- The smoothed, sign-normalized working series `y_use`
(export_images.py 335-351). -/
def yUseOf (y : List ℚ) : List ℚ :=
  smoothSeries smoothWinDefault (y.map fun v => signRef y * v)

/-- Global smoothed peak `max(y_use)` (export_images.py 354). -/
def globalPeakOf (y : List ℚ) : ℚ := ((yUseOf y).max?).getD 0

/-- Local-peak test of the loop at export_images.py 363-366:
`1 <= i <= len-2`, `y[i] >= y[i-1]`, `y[i] >= y[i+1]`, `y[i] >= min_peak_val`. -/
def isLocalPeakB (ys : List ℚ) (minPeakVal : ℚ) (i : ℕ) : Bool :=
  decide (0 < i) && decide (i + 1 < ys.length) &&
  decide (ys.getD (i-1) 0 ≤ ys.getD i 0) &&
  decide (ys.getD (i+1) 0 ≤ ys.getD i 0) &&
  decide (minPeakVal ≤ ys.getD i 0)

/-- The ascending `local_peaks` list (export_images.py 362-366). -/
def localPeaksOf (ys : List ℚ) (minPeakVal : ℚ) : List ℕ :=
  (List.range ys.length).filter (isLocalPeakB ys minPeakVal)

/-- The scan loop of `has_sustained_drop_after_peak`
(export_images.py 387-400): count consecutive points at or below the
threshold, resetting on any point above it; report success as soon as the
count reaches `persistN`. -/
def dropScan (threshold : ℚ) : List ℚ → ℕ → Bool
  | [], _ => false
  | v :: rest, c =>
      if v ≤ threshold then
        if persistN ≤ c + 1 then true else dropScan threshold rest (c + 1)
      else dropScan threshold rest 0

/-- `has_sustained_drop_after_peak(i_peak)` (export_images.py 387-400):
scan `y_use[i+1:]` against `drop_ratio * y_use[i]`. -/
def has_sustained_drop_after_peak (ys : List ℚ) (i : ℕ) : Bool :=
  dropScan (dropFrac * ys.getD i 0) (ys.drop (i + 1)) 0

/-- Python `max(range(len(y_use)), key=lambda k: y_use[k])`
(export_images.py 370, 414): first index attaining the maximum. -/
def argmaxIdx (ys : List ℚ) : ℕ :=
  (List.range ys.length).foldl
    (fun best k => if ys.getD best 0 < ys.getD k 0 then k else best) 0

/-- Time-to-frame mapping loop (export_images.py 373-383, 421-431):
start from `best_i = last_frame`, `best_err = 1e100`, keep the first frame
whose `frameValue` strictly improves the error. -/
def nearestFrameIdx (frameTimes : List ℚ) (t : ℚ) : ℕ :=
  ((List.range frameTimes.length).foldl
    (fun best i =>
      if |frameTimes.getD i 0 - t| < best.2
      then (i, |frameTimes.getD i 0 - t|) else best)
    (frameTimes.length - 1, (10 : ℚ)^100)).1

/-- Classification component of the return tuple of
`find_peak_lpf_frame_index`. -/
inductive PeakType
  | peak_before_drop
  | global_max
  deriving DecidableEq, Repr

/-- Return value of `find_peak_lpf_frame_index`: `noFrames` is the
`(-1, None, None, None)` branch, `nullClass i` is a `(i, ..., None)`
classification-null return (missing LPF history or near-zero global peak),
`sel i c` is a `(i, ..., c)` selection. -/
inductive PeakSel
  | noFrames
  | nullClass (frameIdx : ℕ)
  | sel (frameIdx : ℕ) (classification : PeakType)
  deriving DecidableEq, Repr

/-- `find_peak_lpf_frame_index` (export_images.py 295-433).  `frameTimes`
lists the `frameValue` of every frame of the step; `series` is the LPF
history `(time, value)` pairs (the longest `LPF` series; empty models the
missing-history branch). -/
def find_peak_lpf_frame_index (frameTimes : List ℚ)
    (series : List (ℚ × ℚ)) : PeakSel :=
  if frameTimes.length = 0 then .noFrames
  else if series.isEmpty then .nullClass (frameTimes.length - 1)
  else
    let t := series.map Prod.fst
    let y := series.map Prod.snd
    let yUse := yUseOf y
    let globalPeak := (yUse.max?).getD 0
    if globalPeak ≤ noiseFloor then .nullClass (frameTimes.length - 1)
    else
      let minPeakVal := minPeakFrac * globalPeak
      match (localPeaksOf yUse minPeakVal).find?
          (has_sustained_drop_after_peak yUse) with
      | some i => .sel (nearestFrameIdx frameTimes (t.getD i 0)) .peak_before_drop
      | none =>
          let ci := argmaxIdx yUse
          .sel (nearestFrameIdx frameTimes (t.getD ci 0)) .global_max

/-- Declarative reading of the local-peak condition used by the spec: an
interior index whose smoothed value is at least both neighbours and at least
the minimum-peak threshold. -/
def IsLocalPeak (ys : List ℚ) (minPeakVal : ℚ) (i : ℕ) : Prop :=
  0 < i ∧ i + 1 < ys.length ∧
  ys.getD (i-1) 0 ≤ ys.getD i 0 ∧ ys.getD (i+1) 0 ≤ ys.getD i 0 ∧
  minPeakVal ≤ ys.getD i 0

/-- Declarative reading of the sustained-drop condition: somewhere after the
peak there are `persistN` consecutive smoothed points at or below
`dropFrac` times the peak value. -/
def SustainedDropAfter (ys : List ℚ) (i : ℕ) : Prop :=
  ∃ j, i < j ∧ j + persistN ≤ ys.length ∧
    ∀ k, k < persistN → ys.getD (j + k) 0 ≤ dropFrac * ys.getD i 0

/-! ## Parameter normalization (`normalize_params`, run_analysis.py 128-230) -/

/-- A raw CSV/dict scalar: a number, a string, or Python `None`. -/
inductive PVal
  | num (q : ℚ)
  | str (s : String)
  | pynone
  deriving DecidableEq, Repr

/-- Python `str.strip()` on a character list. -/
def stripChars (cs : List Char) : List Char :=
  ((cs.dropWhile Char.isWhitespace).reverse.dropWhile Char.isWhitespace).reverse

/-- Decimal value of a digit string. -/
def digitsVal (cs : List Char) : ℕ :=
  cs.foldl (fun a c => 10 * a + (c.toNat - '0'.toNat)) 0

/-- The regex `^-?\d+$` of `_to_number` (run_analysis.py 189), with the value
Python `int` would produce. -/
def matchIntRe (cs : List Char) : Option ℤ :=
  match cs with
  | '-' :: rest =>
      if rest ≠ [] ∧ rest.all Char.isDigit then some (-(digitsVal rest : ℤ))
      else none
  | _ =>
      if cs ≠ [] ∧ cs.all Char.isDigit then some ((digitsVal cs : ℤ))
      else none

/-- The regex `^-?\d+\.\d*$` of `_to_number` (run_analysis.py 187), with the
value Python `float` would produce (modelled exactly in `ℚ`). -/
def matchFloatRe (cs : List Char) : Option ℚ :=
  let sgn : Bool := match cs with | '-' :: _ => true | _ => false
  let body := match cs with | '-' :: rest => rest | _ => cs
  match body.splitOn '.' with
  | [ip, fp] =>
      if ip ≠ [] ∧ ip.all Char.isDigit ∧ fp.all Char.isDigit then
        let mag : ℚ := (digitsVal ip : ℚ) + (digitsVal fp : ℚ) / (10 : ℚ)^fp.length
        some (if sgn then -mag else mag)
      else none
  | _ => none

/-- `_to_number` (run_analysis.py 180-193): numbers pass through, strings are
stripped and matched against the float regex then the int regex, anything
else (including `None` and the empty string) is returned unchanged. -/
def _to_number (v : PVal) : PVal :=
  match v with
  | .num q => .num q
  | .pynone => .pynone
  | .str s =>
      let cs := stripChars s.data
      if cs.isEmpty then .str s
      else
        match matchFloatRe cs with
        | some q => .num q
        | none =>
            match matchIntRe cs with
            | some n => .num (n : ℚ)
            | none => .str s

/-- Python `int()` truncates toward zero. -/
def pyTrunc (q : ℚ) : ℤ := if 0 ≤ q then ⌊q⌋ else ⌈q⌉

/-- Python `int(s)` on a string: optional sign and digits after stripping. -/
def pyIntOfString (s : String) : Option ℤ :=
  let cs := stripChars s.data
  match cs with
  | '+' :: rest =>
      if rest ≠ [] ∧ rest.all Char.isDigit then some ((digitsVal rest : ℤ)) else none
  | '-' :: rest =>
      if rest ≠ [] ∧ rest.all Char.isDigit then some (-(digitsVal rest : ℤ)) else none
  | _ =>
      if cs ≠ [] ∧ cs.all Char.isDigit then some ((digitsVal cs : ℤ)) else none

/-- Python `int(v)` on a parameter value: truncate a number, parse a string,
raise (`none`) on `None`. -/
def pyIntCoerce (v : PVal) : Option PVal :=
  match v with
  | .num q => some (.num ((pyTrunc q : ℤ) : ℚ))
  | .str s => (pyIntOfString s).map fun n => .num ((n : ℤ) : ℚ)
  | .pynone => none

/-- The keys that can occur in a normalized parameter dict: the thirty keys
of `DEFAULT_PARAMS` (run_analysis.py 128-170) plus the seven canonical
targets of `LEGACY_MAP` entries that are not default keys
(run_analysis.py 172-178). -/
inductive FieldName
  | hSeg | nSeg | bFlange | tWeb | tFlangeSingle | Lmember | autoPlate
  | bfPlateTol | meshSize | numEigen
  | fy | eps_y_plateau | fu | eps_u
  | fy_web | fu_web | eps_u_web | E_web | eps_y_plateau_web
  | fy_flg | fu_flg | eps_u_flg | E_flg | eps_y_plateau_flg
  | imperfMode | imperfAmp
  | endFixityTop | endFixityBot
  | numCpus | enableCases
  | FrefX | FrefY | FrefZ | UctrlX | UctrlY | UctrlZ | maxCtrlDisp
  deriving DecidableEq, Fintype, Repr

/-- The dict key spelled by each field. -/
def fieldKey : FieldName → String
  | .hSeg => "hSeg" | .nSeg => "nSeg" | .bFlange => "bFlange"
  | .tWeb => "tWeb" | .tFlangeSingle => "tFlangeSingle"
  | .Lmember => "Lmember" | .autoPlate => "autoPlate"
  | .bfPlateTol => "bfPlateTol" | .meshSize => "meshSize"
  | .numEigen => "numEigen"
  | .fy => "fy" | .eps_y_plateau => "eps_y_plateau" | .fu => "fu"
  | .eps_u => "eps_u"
  | .fy_web => "fy_web" | .fu_web => "fu_web" | .eps_u_web => "eps_u_web"
  | .E_web => "E_web" | .eps_y_plateau_web => "eps_y_plateau_web"
  | .fy_flg => "fy_flg" | .fu_flg => "fu_flg" | .eps_u_flg => "eps_u_flg"
  | .E_flg => "E_flg" | .eps_y_plateau_flg => "eps_y_plateau_flg"
  | .imperfMode => "imperfMode" | .imperfAmp => "imperfAmp"
  | .endFixityTop => "endFixityTop" | .endFixityBot => "endFixityBot"
  | .numCpus => "numCpus" | .enableCases => "enableCases"
  | .FrefX => "FrefX" | .FrefY => "FrefY" | .FrefZ => "FrefZ"
  | .UctrlX => "UctrlX" | .UctrlY => "UctrlY" | .UctrlZ => "UctrlZ"
  | .maxCtrlDisp => "maxCtrlDisp"

/-- Inverse of `fieldKey`: which field a dict key names. -/
def keyField (k : String) : Option FieldName :=
  if k = "hSeg" then some .hSeg else if k = "nSeg" then some .nSeg
  else if k = "bFlange" then some .bFlange else if k = "tWeb" then some .tWeb
  else if k = "tFlangeSingle" then some .tFlangeSingle
  else if k = "Lmember" then some .Lmember
  else if k = "autoPlate" then some .autoPlate
  else if k = "bfPlateTol" then some .bfPlateTol
  else if k = "meshSize" then some .meshSize
  else if k = "numEigen" then some .numEigen
  else if k = "fy" then some .fy
  else if k = "eps_y_plateau" then some .eps_y_plateau
  else if k = "fu" then some .fu else if k = "eps_u" then some .eps_u
  else if k = "fy_web" then some .fy_web else if k = "fu_web" then some .fu_web
  else if k = "eps_u_web" then some .eps_u_web
  else if k = "E_web" then some .E_web
  else if k = "eps_y_plateau_web" then some .eps_y_plateau_web
  else if k = "fy_flg" then some .fy_flg else if k = "fu_flg" then some .fu_flg
  else if k = "eps_u_flg" then some .eps_u_flg
  else if k = "E_flg" then some .E_flg
  else if k = "eps_y_plateau_flg" then some .eps_y_plateau_flg
  else if k = "imperfMode" then some .imperfMode
  else if k = "imperfAmp" then some .imperfAmp
  else if k = "endFixityTop" then some .endFixityTop
  else if k = "endFixityBot" then some .endFixityBot
  else if k = "numCpus" then some .numCpus
  else if k = "enableCases" then some .enableCases
  else if k = "FrefX" then some .FrefX else if k = "FrefY" then some .FrefY
  else if k = "FrefZ" then some .FrefZ else if k = "UctrlX" then some .UctrlX
  else if k = "UctrlY" then some .UctrlY else if k = "UctrlZ" then some .UctrlZ
  else if k = "maxCtrlDisp" then some .maxCtrlDisp
  else none

/-- `LEGACY_MAP` (run_analysis.py 172-178) as the dict's key/target pairs in
insertion order. -/
def LEGACY_MAP : List (String × FieldName) :=
  [("A", .hSeg), ("E", .nSeg), ("B", .bFlange), ("C", .tWeb),
   ("D", .tFlangeSingle), ("L", .Lmember),
   ("meshsz", .meshSize), ("cf1f", .FrefX), ("cf2f", .FrefY),
   ("cf3f", .FrefZ),
   ("u1u", .UctrlX), ("u2u", .UctrlY), ("u3u", .UctrlZ),
   ("trueu3", .maxCtrlDisp),
   ("nodedeform", .imperfAmp), ("numCpus", .numCpus),
   ("yfss", .fy), ("yfsn", .eps_y_plateau), ("yuss", .fu),
   ("yusn", .eps_u)]

/-- Dict lookup `LEGACY_MAP[k]` (`k in LEGACY_MAP`, run_analysis.py 200). -/
def legacyField (k : String) : Option FieldName :=
  (LEGACY_MAP.find? fun e => e.1 == k).map (·.2)

/-- A parameter dict: `none` means the key is absent, `some v` means the key
is present with value `v` (`v` may be Python `None` = `PVal.pynone`). -/
def Params : Type := FieldName → Option PVal

instance : DecidableEq Params := fun p q =>
  decidable_of_iff (∀ f, p f = q f) funext_iff.symm

/-- `DEFAULT_PARAMS` (run_analysis.py 128-170); material `None` defaults are
present keys with value `None`; the seven legacy-target extras are absent. -/
def defaultParams : Params := fun f =>
  match f with
  | .hSeg => some (.num 300) | .nSeg => some (.num 2)
  | .bFlange => some (.num 20) | .tWeb => some (.num 15)
  | .tFlangeSingle => some (.num 5) | .Lmember => some (.num 3000)
  | .autoPlate => some (.num 1) | .bfPlateTol => some (.num 0)
  | .meshSize => some (.num 20) | .numEigen => some (.num 10)
  | .fy => some (.num (35561/100)) | .eps_y_plateau => some (.num (23/1000))
  | .fu => some (.num 444) | .eps_u => some (.num (1576/10000))
  | .fy_web => some .pynone | .fu_web => some .pynone
  | .eps_u_web => some .pynone | .E_web => some .pynone
  | .eps_y_plateau_web => some (.num (23/1000))
  | .fy_flg => some .pynone | .fu_flg => some .pynone
  | .eps_u_flg => some .pynone | .E_flg => some .pynone
  | .eps_y_plateau_flg => some (.num (20/1000))
  | .imperfMode => some (.num 1) | .imperfAmp => some (.num 6)
  | .endFixityTop => some (.str "ROTATION_FIXED")
  | .endFixityBot => some (.str "FIXED")
  | .numCpus => some (.num 4) | .enableCases => some (.str "LC4")
  | .FrefX | .FrefY | .FrefZ | .UctrlX | .UctrlY | .UctrlZ
  | .maxCtrlDisp => none

/-- Python `k in p` on the growing dict (run_analysis.py 198). -/
def dictHas (p : Params) (k : String) : Bool :=
  match keyField k with
  | some f => (p f).isSome
  | none => false

/-- One iteration of the merge loop of `normalize_params`
(run_analysis.py 197-201): `if k in p: p[k] = _to_number(v)
elif k in LEGACY_MAP: p[LEGACY_MAP[k]] = _to_number(v)`. -/
def normStep (p : Params) (kv : String × PVal) : Params :=
  match keyField kv.1 with
  | some f =>
      if (p f).isSome then Function.update p f (some (_to_number kv.2))
      else
        match legacyField kv.1 with
        | some g => Function.update p g (some (_to_number kv.2))
        | none => p
  | none =>
      match legacyField kv.1 with
      | some g => Function.update p g (some (_to_number kv.2))
      | none => p

/-- Python `p.get(k) is None`: absent key or present `None`. -/
def isNoneGet (p : Params) (f : FieldName) : Bool :=
  match p f with
  | none => true
  | some .pynone => true
  | some _ => false

/-- One conditional legacy copy of the back-fill block
(run_analysis.py 204-209): `if p.get(dst) is None and p.get(src) is not
None: p[dst] = p[src]`. -/
def condCopy (p : Params) (dst src : FieldName) : Params :=
  if isNoneGet p dst ∧ ¬ isNoneGet p src then Function.update p dst (p src)
  else p

/-- One conditional literal default of the back-fill block
(run_analysis.py 212-223): `if p.get(dst) is None: p[dst] = lit`. -/
def condLit (p : Params) (dst : FieldName) (q : ℚ) : Params :=
  if isNoneGet p dst then Function.update p dst (some (.num q)) else p

/-- The back-fill block of `normalize_params` (run_analysis.py 203-223), in
source order: web material from legacy single-zone fields, then flange and
modulus literal defaults. -/
def backfillParams (p0 : Params) : Params :=
  condLit (condLit (condLit (condLit (condLit
    (condCopy (condCopy (condCopy p0 .fy_web .fy) .fu_web .fu)
      .eps_u_web .eps_u)
    .fy_flg (3252/10)) .fu_flg (4743/10)) .eps_u_flg (200/1000))
    .E_web 210184) .E_flg 211551

/-- One forced-int line `p[f] = int(p[f])` (run_analysis.py 226-229);
`none` models the raised `ValueError`/`TypeError`. -/
def coerceIntField (p : Params) (f : FieldName) : Option Params :=
  match p f with
  | none => none
  | some v => (pyIntCoerce v).map fun w => Function.update p f (some w)

/-- `normalize_params` (run_analysis.py 195-230): merge the row into a copy
of the defaults, back-fill materials, then coerce the four int-typed fields
(`nSeg`, `numEigen`, `imperfMode`, `autoPlate`), raising (`none`) when a
coercion fails. -/
def normalize_params (row : List (String × PVal)) : Option Params := do
  let p0 := backfillParams (row.foldl normStep defaultParams)
  let p1 ← coerceIntField p0 .nSeg
  let p2 ← coerceIntField p1 .numEigen
  let p3 ← coerceIntField p2 .imperfMode
  let p4 ← coerceIntField p3 .autoPlate
  return p4

/-- Dict iteration order of a normalized record: the thirty default keys in
insertion order, then the legacy-target extras. -/
def fieldOrder : List FieldName :=
  [.hSeg, .nSeg, .bFlange, .tWeb, .tFlangeSingle, .Lmember, .autoPlate,
   .bfPlateTol, .meshSize, .numEigen,
   .fy, .eps_y_plateau, .fu, .eps_u,
   .fy_web, .fu_web, .eps_u_web, .E_web, .eps_y_plateau_web,
   .fy_flg, .fu_flg, .eps_u_flg, .E_flg, .eps_y_plateau_flg,
   .imperfMode, .imperfAmp, .endFixityTop, .endFixityBot,
   .numCpus, .enableCases,
   .FrefX, .FrefY, .FrefZ, .UctrlX, .UctrlY, .UctrlZ, .maxCtrlDisp]

/-- The thirty canonical `DEFAULT_PARAMS` fields. -/
def canonFields : List FieldName := fieldOrder.take 30

/-- The seven legacy-target extras (`FrefX` ... `maxCtrlDisp`). -/
def extraFields : List FieldName := fieldOrder.drop 30

/-- A normalized record rendered back into a row (`row_dict.items()` order):
one `(key, value)` entry per present key. -/
def toRow (p : Params) : List (String × PVal) :=
  fieldOrder.filterMap fun f => (p f).map fun v => (fieldKey f, v)

/-- The seven legacy aliases whose canonical targets lie outside
`DEFAULT_PARAMS`. -/
def extraAliasKeys : List String :=
  ["cf1f", "cf2f", "cf3f", "u1u", "u2u", "u3u", "trueu3"]

/-- Synthetic LPF series of the C1 test scenario: a monotone rise to a
plateau of value 100 for 5 points (indices 1-5), then a one-step drop to 10
that persists; times are the increment indices. -/
def demoSeries : List (ℚ × ℚ) :=
  [(0, 40), (1, 100), (2, 100), (3, 100), (4, 100), (5, 100),
   (6, 10), (7, 10), (8, 10), (9, 10)]

/-- Frame times of the C1 test scenario: one frame per increment. -/
def demoFrameTimes : List ℚ := [0, 1, 2, 3, 4, 5, 6, 7, 8, 9]

/-! ## Theorems -/

/-- Membership characterization of the tier-1 extraction list. -/
theorem tier1_mem_iff (frames : List (Option ℚ)) (i : ℕ) (v : ℚ) :
    (i, v) ∈ tier1Extract frames ↔
      i ≠ 0 ∧ i < frames.length ∧ frames.getD i none = some v ∧
        tier1Accept i v = true := by
  unfold tier1Extract
  rw [List.mem_filterMap]
  constructor
  · rintro ⟨a, ha, hfa⟩
    rw [List.mem_range] at ha
    by_cases h0 : a = 0
    · simp [h0] at hfa
    · rw [if_neg h0] at hfa
      cases hga : frames.getD a none with
      | none => rw [hga] at hfa; simp at hfa
      | some w =>
          rw [hga] at hfa
          have hfa' : (if tier1Accept a w = true then some (a, w) else none)
              = some (i, v) := hfa
          by_cases hacc : tier1Accept a w = true
          · rw [if_pos hacc] at hfa'
            have h1 : a = i ∧ w = v := by
              have := Option.some.inj hfa'
              exact ⟨congrArg Prod.fst this, congrArg Prod.snd this⟩
            obtain ⟨rfl, rfl⟩ := h1
            exact ⟨h0, ha, hga, hacc⟩
          · rw [if_neg hacc] at hfa'; simp at hfa'
  · rintro ⟨h0, hlen, hget, hacc⟩
    refine ⟨i, List.mem_range.mpr hlen, ?_⟩
    rw [if_neg h0, hget]
    show (if tier1Accept i v = true then some (i, v) else none) = some (i, v)
    rw [if_pos hacc]

/-- C3: in tier-1 eigenvalue extraction, a non-initial frame's scalar value
`v` is accepted as the eigenvalue of mode `i` exactly when it is non-null
(`frames.getD i none = some v`), nonzero with `|v| > 1e-6`, and not rejected
by the heuristic `|v| < 100 ∨ |v - i| < 0.1`; a null value is never
accepted. -/
theorem tier1_acceptance_characterization :
    (∀ (frames : List (Option ℚ)) (i : ℕ) (v : ℚ), 1 ≤ i →
        frames.getD i none = some v →
        ((i, v) ∈ tier1Extract frames ↔
          v ≠ 0 ∧ noiseFloor < |v| ∧ ¬(|v| < 100 ∨ |v - (i : ℚ)| < 1/10))) ∧
    (∀ (frames : List (Option ℚ)) (i : ℕ) (v : ℚ),
        frames.getD i none = none → (i, v) ∉ tier1Extract frames) := by
  constructor
  · intro frames i v hi hv
    have hlen : i < frames.length := by
      by_contra hge
      rw [List.getD_eq_getElem?_getD, List.getElem?_eq_none (by omega)] at hv
      simp at hv
    rw [tier1_mem_iff]
    have h0 : i ≠ 0 := by omega
    simp only [h0, ne_eq, not_false_eq_true, true_and, hlen, hv,
      Option.some.injEq, true_and]
    unfold tier1Accept
    constructor
    · intro hacc
      by_cases h1 : v ≠ 0 ∧ noiseFloor < |v|
      · rw [if_pos h1] at hacc
        by_cases h2 : |v - (i : ℚ)| < 1/10 ∨ |v| < 100
        · rw [if_pos h2] at hacc; exact absurd hacc (by simp)
        · exact ⟨h1.1, h1.2, fun h => h2 (Or.symm h)⟩
      · rw [if_neg h1] at hacc; exact absurd hacc (by simp)
    · rintro ⟨hv0, hnf, hrej⟩
      rw [if_pos ⟨hv0, hnf⟩, if_neg (fun h => hrej (Or.symm h))]
  · intro frames i v hnone hmem
    rw [tier1_mem_iff] at hmem
    rw [hnone] at hmem
    exact absurd hmem.2.2.1 (by simp)

/-- C3 witness: frame 1 of a two-frame step carries the value 200, which
passes the acceptance test, so mode 1 is extracted with eigenvalue 200. -/
theorem tier1_acceptance_witness :
    ((1 : ℕ), (200 : ℚ)) ∈ tier1Extract [none, some 200] :=
  (tier1_acceptance_characterization.1 [none, some 200] 1 200
    (by norm_num) (by norm_num)).mpr (by norm_num [noiseFloor])

/-- C4 counterexample: the singleton batch `[(mode 1, value 50)]` is
discarded by the code, yet its value is not close to its mode index
(`|50 - 1| = 49 > 10`), so "discarded iff every value is simultaneously
small in magnitude and close to its own mode index" fails in the
"only if" direction. -/
theorem batch_discard_counterexample :
    validateBatch [(1, 50)] = [] ∧
    ¬ (∀ mv ∈ [((1 : ℕ), (50 : ℚ))], |mv.2| ≤ 100 ∧ |mv.2 - (mv.1 : ℚ)| ≤ 10) := by
  constructor
  · norm_num [validateBatch, batchSuspicious]
  · intro h
    have := (h (1, 50) (by norm_num)).2
    norm_num at this

/-- Propositional reading of the batch plausibility flag. -/
theorem batchSuspicious_iff (evs : List (ℕ × ℚ)) :
    batchSuspicious evs = true ↔
      ∀ mv ∈ evs, |mv.2| ≤ 100 ∨ |mv.2 - (mv.1 : ℚ)| ≤ 10 := by
  unfold batchSuspicious
  rw [List.all_eq_true]
  refine forall₂_congr fun mv _ => ?_
  simp [not_and_or, not_lt]

/-- C4 amended: a nonempty tier-1/2 batch is discarded if and only if every
value is small in magnitude (`≤ 100`) OR close to its own mode index
(`within 10`); in particular the synthetic batch `[1.0, 2.0, 3.0]` at modes
1, 2, 3 is discarded, and with no `.dat` data available the pipeline emits
the no-eigenvalues marker. -/
theorem batch_discard_amended :
    (∀ evs : List (ℕ × ℚ), evs ≠ [] →
      (validateBatch evs = [] ↔
        ∀ mv ∈ evs, |mv.2| ≤ 100 ∨ |mv.2 - (mv.1 : ℚ)| ≤ 10)) ∧
    validateBatch [(1, 1), (2, 2), (3, 3)] = [] ∧
    extract_buckling_results [none, none, none, none]
      [none, some 1, some 2, some 3] [] = .noEigenvaluesMarker := by
  refine ⟨?_, ?_, ?_⟩
  · intro evs hne
    unfold validateBatch
    rw [if_neg (by simpa using hne)]
    rw [← batchSuspicious_iff]
    by_cases hs : batchSuspicious evs = true
    · simp [hs]
    · simp [hs, hne]
  · norm_num [validateBatch, batchSuspicious]
  · norm_num [extract_buckling_results, tier1Extract, tier2Extract,
      validateBatch, batchSuspicious, datParse, noiseFloor,
      List.range_succ, tier1Accept]

/-- C4 witness: the amended iff applied to the batch `[(3, 500)]`, whose
value is large and far from its mode: the batch is kept. -/
theorem batch_discard_witness :
    ¬ (validateBatch [((3 : ℕ), (500 : ℚ))] = []) :=
  fun h =>
    absurd (((batch_discard_amended.1 [(3, 500)] (by simp)).mp h) (3, 500)
      (by simp)) (by norm_num)

/-- First components of a `filterMap` over `List.range` are strictly
increasing when the function tags each output with its input index. -/
theorem filterMap_range_fst_pairwise (n : ℕ) (f : ℕ → Option (ℕ × ℚ))
    (hf : ∀ i p, f i = some p → p.1 = i) :
    (((List.range n).filterMap f).map Prod.fst).Pairwise (· < ·) := by
  rw [List.pairwise_map]
  rw [List.pairwise_filterMap]
  refine (List.pairwise_lt_range n).imp_of_mem ?_
  intro a b ha hb hab
  intro x hx y hy
  rw [Option.mem_def] at hx hy
  rw [hf a x hx, hf b y hy]
  exact hab

/-- C5 counterexample: a successful tier-1 extraction (table output) whose
mode sequence is `[2]` — it does not start at 1, so it is not
`1, 2, ..., n`: frame 1 carries the value 5 (rejected by the heuristic),
frame 2 carries 500 (accepted). -/
theorem eigen_modes_counterexample :
    extract_buckling_results [none, some 5, some 500] [none, none, none] []
      = .table [(2, 500)] ∧
    ¬ ([((2 : ℕ), (500 : ℚ))].map Prod.fst = List.range' 1 1) := by
  have h1 : tier1Extract [none, some 5, some 500] = [(2, 500)] := by
    simp only [tier1Extract, List.length_cons, List.length_nil,
      List.range_succ, List.range_zero]
    norm_num [tier1Accept, noiseFloor, List.filterMap_cons,
      List.getD_cons_succ, List.getD_cons_zero]
  constructor
  · simp only [extract_buckling_results, h1]
    norm_num [validateBatch, batchSuspicious]
  · simp [List.range']

/-- C5 amended: for tier-1 and tier-2 extraction (before and after the batch
discard) the extracted mode indices are strictly increasing, because each
accepted frame is tagged with its own frame index and frames are scanned in
increasing order; the sequence need not start at 1 nor be gap-free, and
`.dat`-file modes are read verbatim from the log with no such guarantee. -/
theorem eigen_modes_strictly_increasing (frames descs : List (Option ℚ)) :
    ((tier1Extract frames).map Prod.fst).Pairwise (· < ·) ∧
    ((tier2Extract descs).map Prod.fst).Pairwise (· < ·) ∧
    ((validateBatch (tier1Extract frames)).map Prod.fst).Pairwise (· < ·) ∧
    ((validateBatch (tier2Extract descs)).map Prod.fst).Pairwise (· < ·) := by
  have h1 : ((tier1Extract frames).map Prod.fst).Pairwise (· < ·) := by
    apply filterMap_range_fst_pairwise
    intro i p hp
    by_cases h0 : i = 0
    · simp [h0] at hp
    · rw [if_neg h0] at hp
      cases hg : frames.getD i none with
      | none => rw [hg] at hp; simp at hp
      | some v =>
          rw [hg] at hp
          have hp' : (if tier1Accept i v = true then some (i, v) else none)
              = some p := hp
          by_cases hacc : tier1Accept i v = true
          · rw [if_pos hacc] at hp'
            exact (congrArg Prod.fst (Option.some.inj hp')).symm
          · rw [if_neg hacc] at hp'; simp at hp'
  have h2 : ((tier2Extract descs).map Prod.fst).Pairwise (· < ·) := by
    apply filterMap_range_fst_pairwise
    intro i p hp
    by_cases h0 : i = 0
    · simp [h0] at hp
    · rw [if_neg h0] at hp
      cases hg : descs.getD i none with
      | none => rw [hg] at hp; simp at hp
      | some v =>
          rw [hg] at hp
          have hp' : (if noiseFloor < |v| then some (i, v) else none)
              = some p := hp
          by_cases hn : noiseFloor < |v|
          · rw [if_pos hn] at hp'
            exact (congrArg Prod.fst (Option.some.inj hp')).symm
          · rw [if_neg hn] at hp'; simp at hp'
  have hv : ∀ l : List (ℕ × ℚ), (l.map Prod.fst).Pairwise (· < ·) →
      ((validateBatch l).map Prod.fst).Pairwise (· < ·) := by
    intro l hl
    unfold validateBatch
    by_cases he : l.isEmpty
    · rw [if_pos he]; exact hl
    · rw [if_neg he]
      by_cases hs : batchSuspicious l = true
      · rw [if_pos hs]; simp
      · rw [if_neg hs]; exact hl
  exact ⟨h1, h2, hv _ h1, hv _ h2⟩

/-- C2 counterexample: with load cases LC1 and LC4 enabled and a solver that
fails on LC1, the summary's Case column lists only LC4 — the attempted case
LC1_Axial is absent rather than marked failed. -/
theorem summary_omits_failed_case :
    summaryCaseColumn (run_multicase_results [LC1_Axial, LC4_ShearY]
        (fun c => if c.name = "LC1_Axial" then none else some (1, 2, 3)))
      = ["LC4_ShearY"] ∧
    "LC1_Axial" ∉ summaryCaseColumn (run_multicase_results
        [LC1_Axial, LC4_ShearY]
        (fun c => if c.name = "LC1_Axial" then none else some (1, 2, 3))) := by
  constructor
  · simp [summaryCaseColumn, run_multicase_results, LC1_Axial, LC4_ShearY]
  · simp [summaryCaseColumn, run_multicase_results, LC1_Axial, LC4_ShearY]

/-- C2 amended: an exception in one load case is caught and the loop
proceeds to the next case (the failed case contributes nothing and the
siblings' results are unchanged), and the summary lists exactly the cases
that completed, in order — a case on which the solver failed is absent from
the summary rather than marked failed. -/
theorem partial_failure_semantics :
    (∀ (solve : LoadCase → Option (ℚ × ℚ × ℚ)) (c : LoadCase)
        (cs : List LoadCase), solve c = none →
        run_multicase_results (c :: cs) solve = run_multicase_results cs solve) ∧
    (∀ (solve : LoadCase → Option (ℚ × ℚ × ℚ)) (cases : List LoadCase),
        summaryCaseColumn (run_multicase_results cases solve) =
          (cases.filter fun c => (solve c).isSome).map (·.name)) := by
  constructor
  · intro solve c cs hc
    simp [run_multicase_results, hc]
  · intro solve cases
    induction cases with
    | nil => simp [run_multicase_results, summaryCaseColumn]
    | cons c cs ih =>
        cases hc : solve c with
        | none =>
            simp [run_multicase_results, summaryCaseColumn, hc] at ih ⊢
            exact ih
        | some r =>
            simp [run_multicase_results, summaryCaseColumn, hc] at ih ⊢
            exact ih

/-- C2 witness: the skip equation applied at a concrete failing case. -/
theorem partial_failure_witness :
    run_multicase_results [LC1_Axial] (fun _ => none) =
      run_multicase_results [] (fun _ => none) :=
  partial_failure_semantics.1 (fun _ => none) LC1_Axial [] rfl

/-- C7: for every fixity-mode string configured for the top end, the intended
boundary conditions at the top control point always lock the lateral
translation U1 and always free the axial translation U3, while the remaining
four degrees of freedom follow the fixity table unchanged.  (As shipped the
source file fails to parse: the `dof_top['u3'] = UNSET` line is mis-indented;
this theorem is about the dedented intent recorded in the in-source
comments.) -/
theorem top_bc_overrides (fixity : String) :
    (apply_end_bcs_top fixity).u1 = .SET ∧
    (apply_end_bcs_top fixity).u3 = .UNSET ∧
    (apply_end_bcs_top fixity).u2 = (_fixity_to_dofs fixity).u2 ∧
    (apply_end_bcs_top fixity).ur1 = (_fixity_to_dofs fixity).ur1 ∧
    (apply_end_bcs_top fixity).ur2 = (_fixity_to_dofs fixity).ur2 ∧
    (apply_end_bcs_top fixity).ur3 = (_fixity_to_dofs fixity).ur3 :=
  ⟨rfl, rfl, rfl, rfl, rfl, rfl⟩

/-- C10: the workspace-cleanup step never executes: `KEEP_WORK_FILES` is the
constant `True`; with `keep_work_files=True` the cleanup function returns
`False` and deletes nothing; the orchestrator's per-case step only ever
creates the scratch directory; and over a whole multi-case run every
existing directory survives. -/
theorem cleanup_never_runs :
    KEEP_WORK_FILES = true ∧
    (∀ (fs : List String) (wd : String) (csvOk : Bool) (png minPng : ℕ),
        cleanup_case_work_dir fs wd csvOk png minPng (some true) = (false, fs)) ∧
    (∀ (fs : List String) (wd : String) (csvOk : Bool) (png : ℕ),
        caseWorkDirStep fs wd csvOk png = if wd ∈ fs then fs else wd :: fs) ∧
    (∀ (fs : List String) (cases : List (String × Bool × ℕ)) (wd : String),
        wd ∈ fs → wd ∈ multicaseWorkDirs fs cases) := by
  refine ⟨rfl, fun fs wd c png minPng => rfl, fun fs wd c png => rfl, ?_⟩
  intro fs cases
  induction cases generalizing fs with
  | nil => intro wd h; simpa [multicaseWorkDirs] using h
  | cons c cs ih =>
      intro wd h
      have hstep : wd ∈ caseWorkDirStep fs c.1 c.2.1 c.2.2 := by
        show wd ∈ (if c.1 ∈ fs then fs else c.1 :: fs)
        by_cases hc : c.1 ∈ fs
        · rw [if_pos hc]; exact h
        · rw [if_neg hc]; exact List.mem_cons_of_mem _ h
      have : multicaseWorkDirs fs (c :: cs) =
          multicaseWorkDirs (caseWorkDirStep fs c.1 c.2.1 c.2.2) cs := rfl
      rw [this]
      exact ih _ wd hstep

/-- C10 witness: a concrete two-case run keeps a pre-existing scratch
directory. -/
theorem cleanup_never_runs_witness :
    "work/H600/LC1" ∈ multicaseWorkDirs ["work/H600/LC1"]
      [("work/H600/LC4", true, 3), ("work/H600/LC5", false, 0)] :=
  cleanup_never_runs.2.2.2 ["work/H600/LC1"]
    [("work/H600/LC4", true, 3), ("work/H600/LC5", false, 0)]
    "work/H600/LC1" (by simp)

/-- C6 counterexample: with no selector, an X-shear factor alone
(`cf1f = 1.0`) selects the pure-axial case LC1_Axial, not the pure-shear-X
case LC5_ShearX; and a nonzero-but-small Y-shear factor alone
(`cf2f = 0.05`, below the 0.1 threshold) also selects LC1_Axial, not the
pure-shear-Y case. -/
theorem load_case_inference_counterexample :
    get_enabled_cases { enableCases := none, cf1f := some 1 } = [LC1_Axial] ∧
    get_enabled_cases { enableCases := none, cf2f := some (1/20) } = [LC1_Axial] ∧
    LC1_Axial ≠ LC5_ShearX ∧ LC1_Axial ≠ LC4_ShearY := by
  refine ⟨?_, ?_, ?_, ?_⟩
  · norm_num [get_enabled_cases, inferCasesFromFactors, cfValue, abs_of_pos]
  · norm_num [get_enabled_cases, inferCasesFromFactors, cfValue, abs_of_pos]
  · intro h
    have := congrArg LoadCase.name h
    simp [LC1_Axial, LC5_ShearX] at this
  · intro h
    have := congrArg LoadCase.name h
    simp [LC1_Axial, LC4_ShearY] at this

/-- C6 amended: when the selector is missing/falsy or resolves to no registry
entry, the resolver infers exactly one load case from the legacy load-factor
fields using the threshold `0.1` on absolute values (not "nonzero"): an axial
factor alone above threshold selects LC1; a Y-shear factor alone above
threshold selects LC4; axial and Y-shear both above threshold select LC2;
axial and X-shear above threshold with Y-shear at most threshold select LC3;
an X-shear factor alone selects the axial default LC1 (there is no
pure-shear-X inference branch); everything at or below threshold defaults to
LC1; the fallback never fails. -/
theorem load_case_inference_amended (p : CaseSelInput)
    (hsel : p.enableCases = none ∨ ∃ s, p.enableCases = some s ∧
        ((s.splitOn ",").map String.trim).filterMap resolveToken = []) :
    (get_enabled_cases p = inferCasesFromFactors p ∧
      (inferCasesFromFactors p).length = 1) ∧
    (1/10 < |cfValue p.cf3f p.FrefZ| → |cfValue p.cf2f p.FrefY| < 1/10 →
      |cfValue p.cf1f p.FrefX| < 1/10 →
      inferCasesFromFactors p = [LC1_Axial]) ∧
    (1/10 < |cfValue p.cf2f p.FrefY| → |cfValue p.cf3f p.FrefZ| < 1/10 →
      |cfValue p.cf1f p.FrefX| < 1/10 →
      inferCasesFromFactors p = [LC4_ShearY]) ∧
    (1/10 < |cfValue p.cf3f p.FrefZ| → 1/10 < |cfValue p.cf2f p.FrefY| →
      inferCasesFromFactors p = [LC2_Axial_ShearY]) ∧
    (1/10 < |cfValue p.cf3f p.FrefZ| → 1/10 < |cfValue p.cf1f p.FrefX| →
      |cfValue p.cf2f p.FrefY| ≤ 1/10 →
      inferCasesFromFactors p = [LC3_Axial_ShearX]) ∧
    (1/10 < |cfValue p.cf1f p.FrefX| → |cfValue p.cf3f p.FrefZ| ≤ 1/10 →
      inferCasesFromFactors p = [LC1_Axial]) ∧
    (|cfValue p.cf1f p.FrefX| ≤ 1/10 → |cfValue p.cf2f p.FrefY| ≤ 1/10 →
      |cfValue p.cf3f p.FrefZ| ≤ 1/10 →
      inferCasesFromFactors p = [LC1_Axial]) := by
  refine ⟨⟨?_, ?_⟩, ?_, ?_, ?_, ?_, ?_, ?_⟩
  · rcases hsel with h | ⟨s, hs, hres⟩
    · simp [get_enabled_cases, h]
    · simp [get_enabled_cases, hs, hres]
  · simp only [inferCasesFromFactors]
    repeat first | rfl | split
  · intro h3 h2 h1
    simp only [inferCasesFromFactors]
    rw [if_pos ⟨h3, h2, h1⟩]
  · intro h2 h3 h1
    simp only [inferCasesFromFactors]
    rw [if_neg (by rintro ⟨hx, hy, hz⟩; linarith), if_pos ⟨h2, h3, h1⟩]
  · intro h3 h2
    simp only [inferCasesFromFactors]
    rw [if_neg (by rintro ⟨hx, hy, hz⟩; linarith),
      if_neg (by rintro ⟨hx, hy, hz⟩; linarith), if_pos ⟨h3, h2⟩]
  · intro h3 h1 h2
    simp only [inferCasesFromFactors]
    rw [if_neg (by rintro ⟨hx, hy, hz⟩; linarith),
      if_neg (by rintro ⟨hx, hy, hz⟩; linarith),
      if_neg (by rintro ⟨hx, hy⟩; linarith), if_pos ⟨h3, h1⟩]
  · intro h1 h3
    simp only [inferCasesFromFactors]
    rw [if_neg (by rintro ⟨hx, hy, hz⟩; linarith),
      if_neg (by rintro ⟨hx, hy, hz⟩; linarith),
      if_neg (by rintro ⟨hx, hy⟩; linarith),
      if_neg (by rintro ⟨hx, hy⟩; linarith)]
  · intro h1 h2 h3
    simp only [inferCasesFromFactors]
    rw [if_neg (by rintro ⟨hx, hy, hz⟩; linarith),
      if_neg (by rintro ⟨hx, hy, hz⟩; linarith),
      if_neg (by rintro ⟨hx, hy⟩; linarith),
      if_neg (by rintro ⟨hx, hy⟩; linarith)]

/-- C6 witness: a Y-shear factor of 1.0 alone, with no selector, infers
exactly the pure-shear-Y case. -/
theorem load_case_inference_witness :
    inferCasesFromFactors { enableCases := none, cf2f := some 1 }
      = [LC4_ShearY] :=
  ((load_case_inference_amended { enableCases := none, cf2f := some 1 }
    (Or.inl rfl)).2.2.1)
    (by norm_num [cfValue, abs_of_pos]) (by norm_num [cfValue])
    (by norm_num [cfValue])

/-- Drop-indexing helper: `getD` after `List.drop`. -/
theorem getD_drop_add (l : List ℚ) (m n : ℕ) :
    (l.drop m).getD n 0 = l.getD (m + n) 0 := by
  simp [List.getD_eq_getElem?_getD, List.getElem?_drop]

/-- `List.find?` over `List.range` returns the least index satisfying the
predicate. -/
theorem find_range_eq_some (r : ℕ → Bool) (i : ℕ)
    (hr : r i = true) (hmin : ∀ j, j < i → r j = false) :
    ∀ n, i < n → (List.range n).find? r = some i := by
  intro n
  induction n with
  | zero => intro hi; omega
  | succ n ih =>
      intro hi
      rw [List.range_succ, List.find?_append]
      by_cases h : i < n
      · rw [ih h]; rfl
      · have hin : i = n := by omega
        have hrn : r n = true := by rw [← hin]; exact hr
        have hnone : (List.range n).find? r = none := by
          rw [List.find?_eq_none]
          intro a ha
          rw [List.mem_range] at ha
          simp [hmin a (by omega)]
        rw [hnone, hin]
        simp [List.find?_cons, hrn]

/-- The counter-resetting scan loop of `has_sustained_drop_after_peak`
characterized declaratively: with counter `c` it succeeds exactly when the
list has `persistN` consecutive entries at or below the threshold, or its
first `persistN - c` entries continue an already-started run. -/
theorem dropScan_iff (th : ℚ) (l : List ℚ) :
    ∀ c, c < persistN →
      (dropScan th l c = true ↔
        (∃ j, j + persistN ≤ l.length ∧
            ∀ k, k < persistN → l.getD (j + k) 0 ≤ th) ∨
          (persistN - c ≤ l.length ∧
            ∀ k, k < persistN - c → l.getD k 0 ≤ th)) := by
  induction l with
  | nil =>
      intro c hc
      simp only [dropScan, List.length_nil]
      constructor
      · intro h; exact absurd h (by simp)
      · rintro (⟨j, hj, _⟩ | ⟨hlen, _⟩) <;> omega
  | cons v rest ih =>
      intro c hc
      by_cases hv : v ≤ th
      · by_cases hfin : persistN ≤ c + 1
        · simp only [dropScan, if_pos hv, if_pos hfin]
          constructor
          · intro _
            right
            refine ⟨by simp [List.length_cons]; omega, ?_⟩
            intro k hk
            have hk0 : k = 0 := by omega
            subst hk0
            simpa using hv
          · intro _; trivial
        · have hc1 : c + 1 < persistN := by omega
          simp only [dropScan, if_pos hv, if_neg hfin]
          rw [ih (c+1) hc1]
          constructor
          · rintro (⟨j, hj, hrun⟩ | ⟨hlen, hpre⟩)
            · left
              refine ⟨j+1, by simp [List.length_cons]; omega, ?_⟩
              intro k hk
              rw [show j + 1 + k = (j + k) + 1 by omega, List.getD_cons_succ]
              exact hrun k hk
            · right
              refine ⟨by simp [List.length_cons] at hlen ⊢; omega, ?_⟩
              intro k hk
              cases k with
              | zero => simpa using hv
              | succ k2 =>
                  rw [List.getD_cons_succ]
                  exact hpre k2 (by omega)
          · rintro (⟨j, hj, hrun⟩ | ⟨hlen, hpre⟩)
            · cases j with
              | zero =>
                  right
                  refine ⟨by simp [List.length_cons] at hj ⊢; omega, ?_⟩
                  intro k hk
                  have := hrun (k+1) (by omega)
                  rw [show 0 + (k + 1) = k + 1 by omega,
                    List.getD_cons_succ] at this
                  exact this
              | succ j2 =>
                  left
                  refine ⟨j2, by simp [List.length_cons] at hj ⊢; omega, ?_⟩
                  intro k hk
                  have := hrun k hk
                  rw [show j2 + 1 + k = (j2 + k) + 1 by omega,
                    List.getD_cons_succ] at this
                  exact this
            · right
              refine ⟨by simp [List.length_cons] at hlen ⊢; omega, ?_⟩
              intro k hk
              have := hpre (k+1) (by omega)
              rw [List.getD_cons_succ] at this
              exact this
      · simp only [dropScan, if_neg hv]
        have h0 : (0:ℕ) < persistN := by norm_num [persistN]
        rw [ih 0 h0]
        constructor
        · rintro (⟨j, hj, hrun⟩ | ⟨hlen, hpre⟩)
          · left
            refine ⟨j+1, by simp [List.length_cons] at hj ⊢; omega, ?_⟩
            intro k hk
            rw [show j + 1 + k = (j + k) + 1 by omega, List.getD_cons_succ]
            exact hrun k hk
          · left
            refine ⟨1, by simp [List.length_cons] at hlen ⊢; omega, ?_⟩
            intro k hk
            rw [show 1 + k = k + 1 by omega, List.getD_cons_succ]
            exact hpre k (by omega)
        · rintro (⟨j, hj, hrun⟩ | ⟨hlen, hpre⟩)
          · cases j with
            | zero =>
                exfalso
                have := hrun 0 h0
                simp at this
                exact hv this
            | succ j2 =>
                left
                refine ⟨j2, by simp [List.length_cons] at hj ⊢; omega, ?_⟩
                intro k hk
                have := hrun k hk
                rw [show j2 + 1 + k = (j2 + k) + 1 by omega,
                  List.getD_cons_succ] at this
                exact this
          · exfalso
            have h00 := hpre 0 (by omega)
            simp at h00
            exact hv h00

/-- The code's sustained-drop scan agrees with the declarative reading. -/
theorem sustained_drop_iff (ys : List ℚ) (i : ℕ) :
    has_sustained_drop_after_peak ys i = true ↔ SustainedDropAfter ys i := by
  unfold has_sustained_drop_after_peak SustainedDropAfter
  have hp : 0 < persistN := by norm_num [persistN]
  rw [dropScan_iff (dropFrac * ys.getD i 0) (ys.drop (i+1)) 0 hp]
  constructor
  · rintro (⟨j, hj, hrun⟩ | ⟨hlen, hpre⟩)
    · rw [List.length_drop] at hj
      refine ⟨i + 1 + j, by omega, by omega, ?_⟩
      intro k hk
      have := hrun k hk
      rw [getD_drop_add] at this
      rwa [show i + 1 + (j + k) = i + 1 + j + k by omega] at this
    · rw [List.length_drop] at hlen
      refine ⟨i + 1, by omega, by omega, ?_⟩
      intro k hk
      have := hpre k (by omega)
      rwa [getD_drop_add] at this
  · rintro ⟨j, hij, hjlen, hrun⟩
    left
    refine ⟨j - (i + 1), by rw [List.length_drop]; omega, ?_⟩
    intro k hk
    rw [getD_drop_add, show i + 1 + (j - (i + 1) + k) = j + k by omega]
    exact hrun k hk

/-- The boolean local-peak test agrees with the declarative reading. -/
theorem isLocalPeakB_iff (ys : List ℚ) (mv : ℚ) (i : ℕ) :
    isLocalPeakB ys mv i = true ↔ IsLocalPeak ys mv i := by
  unfold isLocalPeakB IsLocalPeak
  simp [and_assoc]

/-- C1: for every LPF series, when some local peak of the smoothed,
sign-normalized series (interior index, value at least both neighbours and at
least `0.6` of the global smoothed maximum) is followed by a sustained drop
(at least 3 consecutive smoothed points at or below `0.8` of the peak value),
the selector returns the first such peak, mapped to the nearest frame by
time, with classification `peak_before_drop`; and on the synthetic
rise-plateau-drop series it selects index 2 with that classification, one
index after the first plateau point 1 — within the smoothing half-window
tolerance. -/
theorem peak_frame_selection :
    (∀ (frameTimes : List ℚ) (series : List (ℚ × ℚ)) (i : ℕ),
      frameTimes ≠ [] → series ≠ [] →
      noiseFloor < globalPeakOf (series.map Prod.snd) →
      IsLocalPeak (yUseOf (series.map Prod.snd))
        (minPeakFrac * globalPeakOf (series.map Prod.snd)) i →
      SustainedDropAfter (yUseOf (series.map Prod.snd)) i →
      (∀ j, j < i →
        ¬(IsLocalPeak (yUseOf (series.map Prod.snd))
            (minPeakFrac * globalPeakOf (series.map Prod.snd)) j ∧
          SustainedDropAfter (yUseOf (series.map Prod.snd)) j)) →
      find_peak_lpf_frame_index frameTimes series =
        .sel (nearestFrameIdx frameTimes ((series.map Prod.fst).getD i 0))
          .peak_before_drop) ∧
    (find_peak_lpf_frame_index demoFrameTimes demoSeries
        = .sel 2 .peak_before_drop ∧
      (demoSeries.map Prod.snd).getD 1 0 = 100 ∧
      (demoSeries.map Prod.snd).getD 0 0 < 100 ∧
      2 - 1 ≤ smoothWinDefault / 2) := by
  constructor
  · intro frameTimes series i hft hs hgp hpk hdrop hmin
    have hlen0 : ¬ frameTimes.length = 0 := by
      simpa [List.length_eq_zero] using hft
    have hse : ¬ series.isEmpty = true := by
      simpa [List.isEmpty_iff] using hs
    have hgp' : noiseFloor <
        (((yUseOf (series.map Prod.snd)).max?).getD 0) := by
      simpa [globalPeakOf] using hgp
    have hilen : i < (yUseOf (series.map Prod.snd)).length := by
      have := hpk.2.1
      omega
    have hfind : (localPeaksOf (yUseOf (series.map Prod.snd))
        (minPeakFrac * (((yUseOf (series.map Prod.snd)).max?).getD 0))).find?
        (has_sustained_drop_after_peak (yUseOf (series.map Prod.snd)))
          = some i := by
      unfold localPeaksOf
      rw [List.find?_filter]
      apply find_range_eq_some
      · rw [decide_eq_true_eq]
        constructor
        · apply (isLocalPeakB_iff _ _ _).mpr
          simpa [globalPeakOf] using hpk
        · exact (sustained_drop_iff _ _).mpr hdrop
      · intro j hj
        rw [decide_eq_false_iff_not]
        rintro ⟨hp', hq'⟩
        exact hmin j hj ⟨by simpa [globalPeakOf] using (isLocalPeakB_iff _ _ _).mp hp',
          (sustained_drop_iff _ _).mp hq'⟩
      · exact hilen
    simp only [find_peak_lpf_frame_index]
    rw [if_neg hlen0, if_neg hse, if_neg (not_le.mpr hgp'), hfind]
  · have hy : demoSeries.map Prod.snd
        = [40, 100, 100, 100, 100, 100, 10, 10, 10, 10] := by
      simp [demoSeries]
    have ht : demoSeries.map Prod.fst = [0, 1, 2, 3, 4, 5, 6, 7, 8, 9] := by
      simp [demoSeries]
    have hyu : yUseOf [40, 100, 100, 100, 100, 100, 10, 10, 10, 10]
        = [70, 80, 100, 100, 100, 70, 40, 10, 10, 10] := by
      norm_num [yUseOf, signRef, smoothSeries, smoothWinDefault,
        List.min?, List.max?, min_def, max_def, List.range_succ,
        List.getD_cons_succ, List.getD_cons_zero]
    have hmax : ((([70, 80, 100, 100, 100, 70, 40, 10, 10, 10] :
        List ℚ).max?).getD 0) = 100 := by
      norm_num [List.max?, max_def]
    have hlp : localPeaksOf
        ([70, 80, 100, 100, 100, 70, 40, 10, 10, 10] : List ℚ)
        (minPeakFrac * 100) = [2, 3, 4] := by
      norm_num [localPeaksOf, isLocalPeakB, minPeakFrac, List.range_succ,
        List.getD_cons_succ, List.getD_cons_zero]
    have hdrop2 : has_sustained_drop_after_peak
        ([70, 80, 100, 100, 100, 70, 40, 10, 10, 10] : List ℚ) 2 = true := by
      norm_num [has_sustained_drop_after_peak, dropScan, dropFrac, persistN,
        List.getD_cons_succ, List.getD_cons_zero]
    have hfind2 : (([2, 3, 4] : List ℕ).find? (has_sustained_drop_after_peak
        ([70, 80, 100, 100, 100, 70, 40, 10, 10, 10] : List ℚ))) = some 2 := by
      rw [List.find?_cons, hdrop2]
    have hget2 : (([0, 1, 2, 3, 4, 5, 6, 7, 8, 9] : List ℚ)).getD 2 0 = 2 := by
      norm_num [List.getD_cons_succ, List.getD_cons_zero]
    have hnear : nearestFrameIdx demoFrameTimes 2 = 2 := by
      norm_num [nearestFrameIdx, demoFrameTimes, List.range_succ,
        List.getD_cons_succ, List.getD_cons_zero]
    refine ⟨?_, by norm_num [demoSeries, List.getD_cons_succ, List.getD_cons_zero],
      by norm_num [demoSeries, List.getD_cons_zero],
      by norm_num [smoothWinDefault]⟩
    simp only [find_peak_lpf_frame_index]
    rw [if_neg (by norm_num [demoFrameTimes]),
      if_neg (by norm_num [demoSeries]), hy, hyu, hmax,
      if_neg (by norm_num [noiseFloor]), hlp, hfind2, ht]
    show PeakSel.sel (nearestFrameIdx demoFrameTimes
      (([0, 1, 2, 3, 4, 5, 6, 7, 8, 9] : List ℚ).getD 2 0))
        .peak_before_drop = _
    rw [hget2, hnear]

/-- C1 witness: the first-good-peak rule applied at the synthetic series and
the concrete peak index 2. -/
theorem peak_frame_selection_witness :
    find_peak_lpf_frame_index demoFrameTimes demoSeries =
      .sel (nearestFrameIdx demoFrameTimes
        ((demoSeries.map Prod.fst).getD 2 0)) .peak_before_drop :=
  peak_frame_selection.1 demoFrameTimes demoSeries 2
    (by simp [demoFrameTimes])
    (by simp [demoSeries])
    (by norm_num [globalPeakOf, demoSeries, yUseOf, signRef, smoothSeries,
      smoothWinDefault, List.min?, List.max?, min_def, max_def,
      List.range_succ, List.getD_cons_succ, List.getD_cons_zero, noiseFloor])
    (by norm_num [IsLocalPeak, globalPeakOf, demoSeries, yUseOf, signRef,
      smoothSeries, smoothWinDefault, List.min?, List.max?, min_def, max_def,
      List.range_succ, List.getD_cons_succ, List.getD_cons_zero, minPeakFrac])
    (by
      refine ⟨5, by norm_num, ?_, ?_⟩
      · norm_num [demoSeries, yUseOf, signRef, smoothSeries, smoothWinDefault,
          List.min?, List.max?, min_def, max_def, List.range_succ, persistN]
      · intro k hk
        rw [show persistN = 3 from rfl] at hk
        interval_cases k <;>
          norm_num [demoSeries, yUseOf, signRef, smoothSeries,
            smoothWinDefault, List.min?, List.max?, min_def, max_def,
            List.range_succ, List.getD_cons_succ, List.getD_cons_zero,
            dropFrac])
    (by
      intro j hj
      rintro ⟨hp, -⟩
      revert hp
      interval_cases j <;>
        norm_num [IsLocalPeak, globalPeakOf, demoSeries, yUseOf, signRef,
          smoothSeries, smoothWinDefault, List.min?, List.max?, min_def,
          max_def, List.range_succ, List.getD_cons_succ, List.getD_cons_zero,
          minPeakFrac])

/-- C8 counterexample: a record supplying the legacy load-factor alias
`cf1f` normalizes to a record carrying the out-of-defaults key `FrefX`;
renormalizing that record drops `FrefX` (it is neither a default key nor a
legacy alias), so normalize is not idempotent on legacy-only records. -/
theorem normalize_not_idempotent :
    ((normalize_params [("cf1f", PVal.num 5)]).map fun p => p .FrefX)
        = some (some (.num 5)) ∧
    (((normalize_params [("cf1f", PVal.num 5)]).bind
        fun p => normalize_params (toRow p)).map fun p => p .FrefX)
        = some none ∧
    normalize_params [("cf1f", PVal.num 5)] ≠
      ((normalize_params [("cf1f", PVal.num 5)]).bind
        fun p => normalize_params (toRow p)) := by
  refine ⟨by decide, by decide, ?_⟩
  intro h
  have h2 : ((normalize_params [("cf1f", PVal.num 5)]).map fun p => p .FrefX)
      = (((normalize_params [("cf1f", PVal.num 5)]).bind
        fun p => normalize_params (toRow p)).map fun p => p .FrefX) := by
    rw [← h]
  rw [show ((normalize_params [("cf1f", PVal.num 5)]).map fun p => p .FrefX)
      = some (some (.num 5)) by decide] at h2
  rw [show (((normalize_params [("cf1f", PVal.num 5)]).bind
      fun p => normalize_params (toRow p)).map fun p => p .FrefX)
      = some none by decide] at h2
  simp at h2

/-- C9 counterexample: `nSeg = -3` cannot be coerced to a positive integer
(the coercion yields `-3`), yet normalize returns normally — there is no
positivity check; and a malformed `numEigen` makes normalize raise even
though the segment count is fine. -/
theorem normalize_error_counterexample :
    (normalize_params [("nSeg", PVal.num (-3))]).isSome = true ∧
    pyIntCoerce (PVal.num (-3)) = some (PVal.num ((-3 : ℤ) : ℚ)) ∧
    ¬ (0 : ℤ) < -3 ∧
    normalize_params [("numEigen", PVal.str "x")] = none := by
  exact ⟨by decide, by decide, by decide, by decide⟩

/-- `_to_number` is idempotent. -/
theorem to_number_idem (v : PVal) : _to_number (_to_number v) = _to_number v := by
  cases v with
  | num q => rfl
  | pynone => rfl
  | str s =>
      show _to_number (_to_number (.str s)) = _to_number (.str s)
      unfold _to_number
      by_cases h1 : (stripChars s.data).isEmpty
      · simp [h1]
      · simp only [h1, if_neg, Bool.false_eq_true, not_false_eq_true]
        cases h2 : matchFloatRe (stripChars s.data) with
        | some q => simp [h1, h2]
        | none =>
            cases h3 : matchIntRe (stripChars s.data) with
            | some n => simp [h1, h2, h3]
            | none => simp [h1, h2, h3]

/-- `keyField` inverts `fieldKey`. -/
theorem keyField_fieldKey (f : FieldName) : keyField (fieldKey f) = some f := by
  cases f <;> decide

/-- Python truncation fixes integers. -/
theorem pyTrunc_intCast (n : ℤ) : pyTrunc ((n : ℤ) : ℚ) = n := by
  unfold pyTrunc
  split <;> simp

/-- `pyIntCoerce` always produces a numeric integer value. -/
theorem pyIntCoerce_shape (v w : PVal) (h : pyIntCoerce v = some w) :
    ∃ n : ℤ, w = .num ((n : ℤ) : ℚ) := by
  cases v with
  | num q =>
      refine ⟨pyTrunc q, ?_⟩
      simpa [pyIntCoerce] using h.symm
  | str s =>
      have h2 : Option.map (fun n : ℤ => PVal.num ((n : ℤ) : ℚ))
          (pyIntOfString s) = some w := h
      cases hs : pyIntOfString s with
      | none => rw [hs] at h2; simp at h2
      | some n =>
          rw [hs] at h2
          simp only [Option.map_some'] at h2
          exact ⟨n, (Option.some.inj h2).symm⟩
  | pynone => simp [pyIntCoerce] at h

/-- A conditional update at `f` leaves any other field unchanged. -/
theorem ite_update_noteq (c : Prop) [Decidable c] (p : Params)
    (f g : FieldName) (v : Option PVal) (h : g ≠ f) :
    (if c then Function.update p f v else p) g = p g := by
  split
  · exact Function.update_noteq h v p
  · rfl

/-- Every canonical default field is present. -/
theorem canon_defaults_isSome : ∀ f ∈ canonFields, (defaultParams f).isSome := by
  decide

/-- Default values are `_to_number`-fixed. -/
theorem defaults_fixed : ∀ (f : FieldName) (v : PVal),
    defaultParams f = some v → _to_number v = v := by
  intro f v h
  cases f <;>
    first
      | (simp only [defaultParams, Option.some.injEq] at h; subst h; rfl)
      | (simp only [defaultParams, Option.some.injEq] at h; subst h; decide)
      | exact absurd h (by simp [defaultParams])

/-- A row entry whose key spells a present field updates exactly that
field with the number-coerced value. -/
theorem normStep_keyed (q : Params) (f : FieldName) (v : PVal)
    (hpres : (q f).isSome) :
    normStep q (fieldKey f, v) = Function.update q f (some (_to_number v)) := by
  have h1 : keyField (fieldKey f) = some f := keyField_fieldKey f
  show (match keyField (fieldKey f) with
    | some g =>
        if (q g).isSome then Function.update q g (some (_to_number v))
        else
          match legacyField (fieldKey f) with
          | some g => Function.update q g (some (_to_number v))
          | none => q
    | none =>
        match legacyField (fieldKey f) with
        | some g => Function.update q g (some (_to_number v))
        | none => q) = Function.update q f (some (_to_number v))
  rw [h1]
  show (if (q f).isSome then Function.update q f (some (_to_number v))
    else _) = _
  rw [if_pos hpres]

/-- Folding the merge loop over distinct keyed entries: each field gets its
entry's coerced value; untouched fields keep their old value. -/
theorem foldl_normStep_distinct (l : List (FieldName × PVal)) :
    ∀ (q : Params), (∀ fv ∈ l, (q fv.1).isSome) →
      l.Pairwise (fun a b => a.1 ≠ b.1) →
      ∀ g, ((l.map fun fv => (fieldKey fv.1, fv.2)).foldl normStep q) g =
        match l.find? (fun fv => fv.1 == g) with
        | some fv => some (_to_number fv.2)
        | none => q g := by
  induction l with
  | nil => intro q _ _ g; rfl
  | cons a rest ih =>
      intro q hpres hdist g
      rw [List.map_cons, List.foldl_cons,
        normStep_keyed q a.1 a.2 (hpres a (by simp))]
      have hpres2 : ∀ fv ∈ rest,
          ((Function.update q a.1 (some (_to_number a.2))) fv.1).isSome := by
        intro fv hfv
        by_cases he : fv.1 = a.1
        · rw [he, Function.update_same]; rfl
        · rw [Function.update_noteq he]
          exact hpres fv (List.mem_cons_of_mem _ hfv)
      rw [ih _ hpres2 hdist.of_cons g]
      have hane := (List.pairwise_cons.mp hdist).1
      by_cases hg : a.1 = g
      · have hrn : rest.find? (fun fv => fv.1 == g) = none := by
          rw [List.find?_eq_none]
          intro x hx
          simp only [beq_iff_eq, Bool.not_eq_true, decide_eq_false_iff_not]
          intro hxg
          exact hane x hx (by rw [hg, hxg])
        rw [hrn, List.find?_cons]
        have : (a.1 == g) = true := by simp [hg]
        rw [this, hg, Function.update_same]
      · rw [List.find?_cons]
        have : (a.1 == g) = false := by simp [hg]
        rw [this]
        cases hrf : rest.find? (fun fv => fv.1 == g) with
        | some fv => rfl
        | none => exact Function.update_noteq (fun hh => hg hh.symm) _ q

/-- `condCopy` leaves fields other than the destination unchanged. -/
theorem condCopy_noteq (p : Params) (dst src g : FieldName) (h : g ≠ dst) :
    condCopy p dst src g = p g := by
  unfold condCopy
  exact ite_update_noteq _ p dst g _ h

/-- `condLit` leaves fields other than the destination unchanged. -/
theorem condLit_noteq (p : Params) (dst g : FieldName) (q : ℚ) (h : g ≠ dst) :
    condLit p dst q g = p g := by
  unfold condLit
  exact ite_update_noteq _ p dst g _ h

/-- After `condLit`, the destination is never `None`-valued. -/
theorem condLit_dst (p : Params) (dst : FieldName) (q : ℚ) :
    isNoneGet (condLit p dst q) dst = false := by
  unfold condLit
  by_cases h : isNoneGet p dst = true
  · rw [if_pos h]
    unfold isNoneGet
    rw [Function.update_same]
  · rw [if_neg h]
    simpa using h

/-- After `condCopy`, a `None`-valued destination forces a `None`-valued
source. -/
theorem condCopy_dst (p : Params) (dst src : FieldName) (hds : src ≠ dst) :
    isNoneGet (condCopy p dst src) dst = true →
      isNoneGet (condCopy p dst src) src = true := by
  unfold condCopy
  by_cases h : isNoneGet p dst = true ∧ ¬ isNoneGet p src = true
  · rw [if_pos h]
    intro hd
    unfold isNoneGet at hd ⊢
    rw [Function.update_same] at hd
    rw [Function.update_noteq hds]
    exact hd
  · rw [if_neg h]
    intro hd
    rcases not_and_or.mp h with h1 | h2
    · exact absurd hd h1
    · exact not_not.mp h2

/-- `isNoneGet` through `condCopy` at an unrelated field. -/
theorem isNoneGet_condCopy_noteq (p : Params) (dst src g : FieldName)
    (h : g ≠ dst) : isNoneGet (condCopy p dst src) g = isNoneGet p g := by
  unfold isNoneGet
  rw [condCopy_noteq p dst src g h]

/-- `isNoneGet` through `condLit` at an unrelated field. -/
theorem isNoneGet_condLit_noteq (p : Params) (dst g : FieldName) (q : ℚ)
    (h : g ≠ dst) : isNoneGet (condLit p dst q) g = isNoneGet p g := by
  unfold isNoneGet
  rw [condLit_noteq p dst g q h]

/-- Every run of the merge loop body either leaves the dict unchanged or
updates one field with the number-coerced value, and an updated field is
either the (present) spelled field or a legacy target. -/
theorem normStep_cases (q : Params) (kv : String × PVal) :
    normStep q kv = q ∨
    ∃ g : FieldName,
      normStep q kv = Function.update q g (some (_to_number kv.2)) ∧
      ((keyField kv.1 = some g ∧ (q g).isSome = true) ∨
        legacyField kv.1 = some g) := by
  cases hk : keyField kv.1 with
  | some g =>
      by_cases hp : (q g).isSome = true
      · right
        refine ⟨g, ?_, Or.inl ⟨rfl, hp⟩⟩
        unfold normStep
        rw [hk]
        exact if_pos hp
      · cases hl : legacyField kv.1 with
        | some g2 =>
            right
            refine ⟨g2, ?_, Or.inr rfl⟩
            unfold normStep
            rw [hk, hl]
            exact if_neg hp
        | none =>
            left
            unfold normStep
            rw [hk, hl]
            exact if_neg hp
  | none =>
      cases hl : legacyField kv.1 with
      | some g2 =>
          right
          refine ⟨g2, ?_, Or.inr rfl⟩
          unfold normStep
          rw [hk, hl]
      | none =>
          left
          unfold normStep
          rw [hk, hl]

/-- The merge loop stores only `_to_number`-fixed values. -/
theorem normStep_fixed (q : Params) (kv : String × PVal)
    (hq : ∀ f v, q f = some v → _to_number v = v) :
    ∀ f v, normStep q kv f = some v → _to_number v = v := by
  intro f v h
  rcases normStep_cases q kv with he | ⟨g, he, -⟩
  · rw [he] at h; exact hq f v h
  · rw [he] at h
    by_cases hfg : f = g
    · subst hfg
      rw [Function.update_same] at h
      rw [← Option.some.inj h]
      exact to_number_idem _
    · rw [Function.update_noteq hfg] at h
      exact hq f v h

/-- Folding the merge loop stores only `_to_number`-fixed values. -/
theorem foldl_fixed (row : List (String × PVal)) :
    ∀ q : Params, (∀ f v, q f = some v → _to_number v = v) →
      ∀ f v, (row.foldl normStep q) f = some v → _to_number v = v := by
  induction row with
  | nil => intro q hq; exact hq
  | cons kv rest ih =>
      intro q hq
      exact ih _ (normStep_fixed q kv hq)

/-- `condCopy` stores only values already present. -/
theorem condCopy_fixed (p : Params) (dst src : FieldName)
    (hp : ∀ f v, p f = some v → _to_number v = v) :
    ∀ f v, condCopy p dst src f = some v → _to_number v = v := by
  intro f v h
  unfold condCopy at h
  split at h
  · by_cases he : f = dst
    · subst he
      rw [Function.update_same] at h
      exact hp src v h
    · rw [Function.update_noteq he] at h
      exact hp f v h
  · exact hp f v h

/-- `condLit` stores only numeric literals. -/
theorem condLit_fixed (p : Params) (dst : FieldName) (q : ℚ)
    (hp : ∀ f v, p f = some v → _to_number v = v) :
    ∀ f v, condLit p dst q f = some v → _to_number v = v := by
  intro f v h
  unfold condLit at h
  split at h
  · by_cases he : f = dst
    · subst he
      rw [Function.update_same] at h
      rw [← Option.some.inj h]
      rfl
    · rw [Function.update_noteq he] at h
      exact hp f v h
  · exact hp f v h

/-- The back-fill block stores only `_to_number`-fixed values. -/
theorem backfill_fixed (q : Params)
    (hq : ∀ f v, q f = some v → _to_number v = v) :
    ∀ f v, backfillParams q f = some v → _to_number v = v := by
  unfold backfillParams
  exact condLit_fixed _ _ _ (condLit_fixed _ _ _ (condLit_fixed _ _ _
    (condLit_fixed _ _ _ (condLit_fixed _ _ _ (condCopy_fixed _ _ _
      (condCopy_fixed _ _ _ (condCopy_fixed _ _ _ hq)))))))

/-- A field that is not `None`-valued is present. -/
theorem isSome_of_not_noneGet (p : Params) (g : FieldName)
    (h : isNoneGet p g = false) : (p g).isSome := by
  unfold isNoneGet at h
  cases hv : p g with
  | none => rw [hv] at h; simp at h
  | some v => rfl

/-- The merge loop never removes a present field. -/
theorem normStep_mono (q : Params) (kv : String × PVal) (f : FieldName)
    (h : (q f).isSome) : ((normStep q kv) f).isSome := by
  rcases normStep_cases q kv with he | ⟨g, he, -⟩
  · rw [he]; exact h
  · rw [he]
    by_cases hfg : f = g
    · subst hfg; rw [Function.update_same]; rfl
    · rw [Function.update_noteq hfg]; exact h

/-- Folding the merge loop never removes a present field. -/
theorem foldl_mono (row : List (String × PVal)) :
    ∀ (q : Params) (f : FieldName), (q f).isSome →
      ((row.foldl normStep q) f).isSome := by
  induction row with
  | nil => intro q f h; exact h
  | cons kv rest ih =>
      intro q f h
      exact ih _ f (normStep_mono q kv f h)

/-- `condCopy` never removes a present field. -/
theorem condCopy_mono (p : Params) (dst src f : FieldName)
    (h : (p f).isSome) : ((condCopy p dst src) f).isSome := by
  unfold condCopy
  split
  · next hc =>
      by_cases he : f = dst
      · subst he
        rw [Function.update_same]
        exact isSome_of_not_noneGet p src (by simpa using hc.2)
      · rw [Function.update_noteq he]; exact h
  · exact h

/-- `condLit` never removes a present field. -/
theorem condLit_mono (p : Params) (dst f : FieldName) (q : ℚ)
    (h : (p f).isSome) : ((condLit p dst q) f).isSome := by
  unfold condLit
  split
  · by_cases he : f = dst
    · subst he; rw [Function.update_same]; rfl
    · rw [Function.update_noteq he]; exact h
  · exact h

/-- The back-fill block never removes a present field. -/
theorem backfill_mono (q : Params) (f : FieldName) (h : (q f).isSome) :
    ((backfillParams q) f).isSome := by
  unfold backfillParams
  exact condLit_mono _ _ _ _ (condLit_mono _ _ _ _ (condLit_mono _ _ _ _
    (condLit_mono _ _ _ _ (condLit_mono _ _ _ _ (condCopy_mono _ _ _ _
      (condCopy_mono _ _ _ _ (condCopy_mono _ _ _ _ h)))))))

/-- Canonical fields and legacy-target extras are disjoint. -/
theorem canon_not_extra : ∀ f ∈ canonFields, f ∉ extraFields := by decide

/-- A legacy alias outside the seven extra aliases targets a canonical
field. -/
theorem legacyField_canon (k : String) (hk : k ∉ extraAliasKeys)
    (g : FieldName) (h : legacyField k = some g) : g ∈ canonFields := by
  unfold legacyField at h
  cases hf : LEGACY_MAP.find? (fun e => e.1 == k) with
  | none => rw [hf] at h; simp at h
  | some pr =>
      rw [hf] at h
      have hg : pr.2 = g := Option.some.inj (by simpa using h)
      have hmem := List.mem_of_find?_eq_some hf
      have hpred := List.find?_some hf
      have hke : pr.1 = k := by simpa using hpred
      subst hg
      subst hke
      simp only [LEGACY_MAP, List.mem_cons, List.not_mem_nil,
        or_false] at hmem
      rcases hmem with rfl | rfl | rfl | rfl | rfl | rfl | rfl | rfl |
        rfl | rfl | rfl | rfl | rfl | rfl | rfl | rfl | rfl | rfl |
        rfl | rfl <;>
        first
          | decide
          | (exfalso; exact hk (by decide))

/-- The merge loop keeps the extras absent when the row avoids the seven
legacy extra aliases. -/
theorem normStep_extras (q : Params) (kv : String × PVal)
    (hkv : kv.1 ∉ extraAliasKeys)
    (hq : ∀ g ∈ extraFields, q g = none) :
    ∀ g ∈ extraFields, normStep q kv g = none := by
  intro g hg
  rcases normStep_cases q kv with he | ⟨f, he, hcase⟩
  · rw [he]; exact hq g hg
  · rw [he]
    have hfg : g ≠ f := by
      rcases hcase with ⟨-, hp⟩ | hl
      · intro hgf
        subst hgf
        rw [hq g hg] at hp
        simp at hp
      · intro hgf
        subst hgf
        exact canon_not_extra g (legacyField_canon kv.1 hkv g hl) hg
    rw [Function.update_noteq hfg]
    exact hq g hg

/-- Folding the merge loop keeps the extras absent. -/
theorem foldl_extras (row : List (String × PVal))
    (hrow : ∀ kv ∈ row, kv.1 ∉ extraAliasKeys) :
    ∀ (q : Params), (∀ g ∈ extraFields, q g = none) →
      ∀ g ∈ extraFields, (row.foldl normStep q) g = none := by
  induction row with
  | nil => intro q hq; exact hq
  | cons kv rest ih =>
      intro q hq
      exact ih (fun x hx => hrow x (List.mem_cons_of_mem _ hx)) _
        (normStep_extras q kv (hrow kv (by simp)) hq)

/-- The back-fill block does not touch a field outside its eight targets. -/
theorem backfill_other (q : Params) (g : FieldName)
    (h1 : g ≠ .fy_web) (h2 : g ≠ .fu_web) (h3 : g ≠ .eps_u_web)
    (h4 : g ≠ .fy_flg) (h5 : g ≠ .fu_flg) (h6 : g ≠ .eps_u_flg)
    (h7 : g ≠ .E_web) (h8 : g ≠ .E_flg) :
    backfillParams q g = q g := by
  unfold backfillParams
  rw [condLit_noteq _ _ _ _ h8, condLit_noteq _ _ _ _ h7,
    condLit_noteq _ _ _ _ h6, condLit_noteq _ _ _ _ h5,
    condLit_noteq _ _ _ _ h4, condCopy_noteq _ _ _ _ h3,
    condCopy_noteq _ _ _ _ h2, condCopy_noteq _ _ _ _ h1]

/-- `isNoneGet` of a field untouched by the five literal back-fills, seen
through them. -/
theorem isNoneGet_thru_lits (c : Params) (g : FieldName)
    (n4 : g ≠ .fy_flg) (n5 : g ≠ .fu_flg) (n6 : g ≠ .eps_u_flg)
    (n7 : g ≠ .E_web) (n8 : g ≠ .E_flg) :
    isNoneGet (condLit (condLit (condLit (condLit (condLit c
      .fy_flg (3252/10)) .fu_flg (4743/10)) .eps_u_flg (200/1000))
      .E_web 210184) .E_flg 211551) g = isNoneGet c g := by
  rw [isNoneGet_condLit_noteq _ _ _ _ n8, isNoneGet_condLit_noteq _ _ _ _ n7,
    isNoneGet_condLit_noteq _ _ _ _ n6, isNoneGet_condLit_noteq _ _ _ _ n5,
    isNoneGet_condLit_noteq _ _ _ _ n4]

/-- The material invariants that hold after the back-fill block: a
`None`-valued web field forces its legacy source to be `None` too, and the
five literal-defaulted fields are never `None`. -/
theorem backfill_facts (q : Params) :
    (isNoneGet (backfillParams q) .fy_web = true →
      isNoneGet (backfillParams q) .fy = true) ∧
    (isNoneGet (backfillParams q) .fu_web = true →
      isNoneGet (backfillParams q) .fu = true) ∧
    (isNoneGet (backfillParams q) .eps_u_web = true →
      isNoneGet (backfillParams q) .eps_u = true) ∧
    isNoneGet (backfillParams q) .fy_flg = false ∧
    isNoneGet (backfillParams q) .fu_flg = false ∧
    isNoneGet (backfillParams q) .eps_u_flg = false ∧
    isNoneGet (backfillParams q) .E_web = false ∧
    isNoneGet (backfillParams q) .E_flg = false := by
  unfold backfillParams
  refine ⟨?_, ?_, ?_, ?_, ?_, ?_, ?_, ?_⟩
  · rw [isNoneGet_thru_lits _ .fy_web (by decide) (by decide) (by decide)
        (by decide) (by decide),
      isNoneGet_thru_lits _ .fy (by decide) (by decide) (by decide)
        (by decide) (by decide),
      isNoneGet_condCopy_noteq _ .eps_u_web .eps_u .fy_web (by decide),
      isNoneGet_condCopy_noteq _ .eps_u_web .eps_u .fy (by decide),
      isNoneGet_condCopy_noteq _ .fu_web .fu .fy_web (by decide),
      isNoneGet_condCopy_noteq _ .fu_web .fu .fy (by decide)]
    exact condCopy_dst q .fy_web .fy (by decide)
  · rw [isNoneGet_thru_lits _ .fu_web (by decide) (by decide) (by decide)
        (by decide) (by decide),
      isNoneGet_thru_lits _ .fu (by decide) (by decide) (by decide)
        (by decide) (by decide),
      isNoneGet_condCopy_noteq _ .eps_u_web .eps_u .fu_web (by decide),
      isNoneGet_condCopy_noteq _ .eps_u_web .eps_u .fu (by decide)]
    exact condCopy_dst _ .fu_web .fu (by decide)
  · rw [isNoneGet_thru_lits _ .eps_u_web (by decide) (by decide) (by decide)
        (by decide) (by decide),
      isNoneGet_thru_lits _ .eps_u (by decide) (by decide) (by decide)
        (by decide) (by decide)]
    exact condCopy_dst _ .eps_u_web .eps_u (by decide)
  · rw [isNoneGet_condLit_noteq _ .E_flg .fy_flg _ (by decide),
      isNoneGet_condLit_noteq _ .E_web .fy_flg _ (by decide),
      isNoneGet_condLit_noteq _ .eps_u_flg .fy_flg _ (by decide),
      isNoneGet_condLit_noteq _ .fu_flg .fy_flg _ (by decide)]
    exact condLit_dst _ .fy_flg _
  · rw [isNoneGet_condLit_noteq _ .E_flg .fu_flg _ (by decide),
      isNoneGet_condLit_noteq _ .E_web .fu_flg _ (by decide),
      isNoneGet_condLit_noteq _ .eps_u_flg .fu_flg _ (by decide)]
    exact condLit_dst _ .fu_flg _
  · rw [isNoneGet_condLit_noteq _ .E_flg .eps_u_flg _ (by decide),
      isNoneGet_condLit_noteq _ .E_web .eps_u_flg _ (by decide)]
    exact condLit_dst _ .eps_u_flg _
  · rw [isNoneGet_condLit_noteq _ .E_flg .E_web _ (by decide)]
    exact condLit_dst _ .E_web _
  · exact condLit_dst _ .E_flg _

/-- On a record already satisfying the back-fill invariants, the back-fill
block is the identity. -/
theorem backfill_fixpoint (p : Params)
    (hfy : isNoneGet p .fy_web = true → isNoneGet p .fy = true)
    (hfu : isNoneGet p .fu_web = true → isNoneGet p .fu = true)
    (heps : isNoneGet p .eps_u_web = true → isNoneGet p .eps_u = true)
    (h4 : isNoneGet p .fy_flg = false) (h5 : isNoneGet p .fu_flg = false)
    (h6 : isNoneGet p .eps_u_flg = false) (h7 : isNoneGet p .E_web = false)
    (h8 : isNoneGet p .E_flg = false) :
    backfillParams p = p := by
  have hcopy : ∀ (dst src : FieldName),
      (isNoneGet p dst = true → isNoneGet p src = true) →
      condCopy p dst src = p := by
    intro dst src himp
    unfold condCopy
    rw [if_neg]
    rintro ⟨ha, hb⟩
    exact hb (himp ha)
  have hlit : ∀ (dst : FieldName) (qq : ℚ),
      isNoneGet p dst = false → condLit p dst qq = p := by
    intro dst qq hno
    unfold condLit
    rw [if_neg]
    rw [hno]
    simp
  unfold backfillParams
  rw [hcopy _ _ hfy, hcopy _ _ hfu, hcopy _ _ heps, hlit _ _ h4,
    hlit _ _ h5, hlit _ _ h6, hlit _ _ h7, hlit _ _ h8]

/-- Inversion of a successful forced-int coercion. -/
theorem coerce_inv (p : Params) (f : FieldName) (p2 : Params)
    (h : coerceIntField p f = some p2) :
    ∃ v w, p f = some v ∧ pyIntCoerce v = some w ∧
      p2 = Function.update p f (some w) := by
  unfold coerceIntField at h
  cases hv : p f with
  | none => rw [hv] at h; simp at h
  | some v =>
      rw [hv] at h
      have h2 : (pyIntCoerce v).map (fun w => Function.update p f (some w))
          = some p2 := h
      cases hw : pyIntCoerce v with
      | none => rw [hw] at h2; simp at h2
      | some w =>
          rw [hw] at h2
          simp only [Option.map_some'] at h2
          exact ⟨v, w, rfl, hw, (Option.some.inj h2).symm⟩

/-- A forced-int coercion raises exactly when the stored value cannot be
`int()`-coerced. -/
theorem coerce_none_iff (p : Params) (f : FieldName) :
    coerceIntField p f = none ↔ (p f).bind pyIntCoerce = none := by
  unfold coerceIntField
  cases hv : p f with
  | none => simp
  | some v =>
      show ((pyIntCoerce v).map fun w => Function.update p f (some w)) = none
        ↔ (some v).bind pyIntCoerce = none
      rw [Option.some_bind]
      exact Option.map_eq_none'

/-- Canonical self-lookup in the canonical field list. -/
theorem canon_find_self : ∀ g : FieldName, g ∈ canonFields →
    canonFields.find? (fun f => f == g) = some g := by decide

/-- Extras are not found in the canonical field list. -/
theorem canon_find_extra : ∀ g : FieldName, g ∈ extraFields →
    canonFields.find? (fun f => f == g) = none := by decide

/-- Every field is canonical or an extra. -/
theorem canon_or_extra : ∀ g : FieldName,
    g ∈ canonFields ∨ g ∈ extraFields := by decide

/-- Extras are absent from the default record. -/
theorem extra_defaults_none : ∀ g ∈ extraFields, defaultParams g = none := by
  decide

/-- `toRow` of a record with absent extras and present canonical fields is
the canonical keyed entry list. -/
theorem toRow_canon (p : Params)
    (hext : ∀ g ∈ extraFields, p g = none)
    (hcan : ∀ f ∈ canonFields, (p f).isSome) :
    toRow p = (canonFields.map fun f => (f, (p f).getD PVal.pynone)).map
      fun fv => (fieldKey fv.1, fv.2) := by
  unfold toRow
  have hsplit : fieldOrder = canonFields ++ extraFields := by
    unfold canonFields extraFields
    rw [List.take_append_drop]
  rw [hsplit, List.filterMap_append]
  have hex : extraFields.filterMap
      (fun f => (p f).map fun v => (fieldKey f, v)) = [] := by
    rw [List.filterMap_eq_nil_iff]
    intro f hf
    rw [hext f hf]
    rfl
  rw [hex, List.append_nil, List.map_map]
  have hgen : ∀ l : List FieldName, (∀ f ∈ l, (p f).isSome) →
      l.filterMap (fun f => (p f).map fun v => (fieldKey f, v)) =
        l.map fun f => (fieldKey f, (p f).getD PVal.pynone) := by
    intro l
    induction l with
    | nil => intro _; rfl
    | cons a rest ih =>
        intro hl
        rw [List.filterMap_cons, List.map_cons]
        cases hv : p a with
        | none => exact absurd (hl a (by simp)) (by rw [hv]; simp)
        | some v =>
            simp only [Option.map_some', Option.getD_some]
            rw [ih fun f hf => hl f (List.mem_cons_of_mem _ hf)]
  exact hgen canonFields hcan

/-- Folding the merge loop over the canonical keyed entries of a normalized
record reproduces the record. -/
theorem renorm_fold (p : Params)
    (hext : ∀ g ∈ extraFields, p g = none)
    (hcan : ∀ f ∈ canonFields, (p f).isSome)
    (hfix : ∀ f v, p f = some v → _to_number v = v) :
    (toRow p).foldl normStep defaultParams = p := by
  funext g
  rw [toRow_canon p hext hcan]
  have hpres : ∀ fv ∈ (canonFields.map fun f => (f, (p f).getD PVal.pynone)),
      (defaultParams fv.1).isSome := by
    intro fv hfv
    rw [List.mem_map] at hfv
    obtain ⟨f, hf, rfl⟩ := hfv
    exact canon_defaults_isSome f hf
  have hdist : (canonFields.map fun f => (f, (p f).getD PVal.pynone)).Pairwise
      (fun a b => a.1 ≠ b.1) := by
    rw [List.pairwise_map]
    have : canonFields.Pairwise (fun a b : FieldName => a ≠ b) := by decide
    exact this
  rw [foldl_normStep_distinct _ defaultParams hpres hdist g]
  by_cases hg : g ∈ canonFields
  · have hfind : ((canonFields.map fun f => (f, (p f).getD PVal.pynone)).find?
        fun fv => fv.1 == g) = some (g, (p g).getD PVal.pynone) := by
      rw [List.find?_map]
      have hcomp : ((fun fv : FieldName × PVal => fv.1 == g) ∘
          fun f => (f, (p f).getD PVal.pynone)) = fun f => f == g := rfl
      rw [hcomp, canon_find_self g hg]
      rfl
    rw [hfind]
    show some (_to_number ((p g).getD PVal.pynone)) = p g
    have hs := hcan g hg
    cases hv : p g with
    | none => rw [hv] at hs; simp at hs
    | some v =>
        simp only [Option.getD_some]
        rw [hfix g v hv]
  · have hgex : g ∈ extraFields := (canon_or_extra g).resolve_left hg
    have hfind : ((canonFields.map fun f => (f, (p f).getD PVal.pynone)).find?
        fun fv => fv.1 == g) = none := by
      rw [List.find?_map]
      have hcomp : ((fun fv : FieldName × PVal => fv.1 == g) ∘
          fun f => (f, (p f).getD PVal.pynone)) = fun f => f == g := rfl
      rw [hcomp, canon_find_extra g hgex]
      rfl
    rw [hfind]
    show defaultParams g = p g
    rw [hext g hgex, extra_defaults_none g hgex]

/-- C8 amended: normalize is idempotent on every record that avoids the
seven legacy aliases whose canonical targets lie outside the default record
(`cf1f`, `cf2f`, `cf3f`, `u1u`, `u2u`, `u3u`, `trueu3`): renormalizing the
normalized record reproduces it exactly.  (For records using those aliases
the second pass drops the alias targets — see the counterexample.) -/
theorem normalize_idempotent_amended (row : List (String × PVal)) (p : Params)
    (hnorm : normalize_params row = some p)
    (hrow : ∀ kv ∈ row, kv.1 ∉ extraAliasKeys) :
    normalize_params (toRow p) = some p := by
  have hnorm2 : ∃ p1, coerceIntField
      (backfillParams (row.foldl normStep defaultParams)) .nSeg = some p1 ∧
      ∃ p2, coerceIntField p1 .numEigen = some p2 ∧
      ∃ p3, coerceIntField p2 .imperfMode = some p3 ∧
      ∃ p4, coerceIntField p3 .autoPlate = some p4 ∧ p4 = p := by
    have h : ((coerceIntField
        (backfillParams (row.foldl normStep defaultParams)) .nSeg).bind
        fun p1 => (coerceIntField p1 .numEigen).bind
        fun p2 => (coerceIntField p2 .imperfMode).bind
        fun p3 => (coerceIntField p3 .autoPlate).bind
        fun p4 => some p4) = some p := hnorm
    simpa only [Option.bind_eq_some, Option.some.injEq] using h
  obtain ⟨p1, hc1, p2, hc2, p3, hc3, p4, hc4, hp4⟩ := hnorm2
  subst hp4
  obtain ⟨v1, w1, hv1, hw1, hp1⟩ := coerce_inv _ _ _ hc1
  obtain ⟨v2, w2, hv2, hw2, hp2⟩ := coerce_inv _ _ _ hc2
  obtain ⟨v3, w3, hv3, hw3, hp3⟩ := coerce_inv _ _ _ hc3
  obtain ⟨v4, w4, hv4, hw4, hp4⟩ := coerce_inv _ _ _ hc4
  -- the fold/backfill stage of the first pass
  have hq0fix : ∀ f v, (row.foldl normStep defaultParams) f = some v →
      _to_number v = v := foldl_fixed row defaultParams defaults_fixed
  have hbfix : ∀ f v,
      (backfillParams (row.foldl normStep defaultParams)) f = some v →
      _to_number v = v := backfill_fixed _ hq0fix
  -- p as an update chain over the backfilled record
  have hpdef : p4 = Function.update (Function.update (Function.update
      (Function.update (backfillParams (row.foldl normStep defaultParams))
        .nSeg (some w1)) .numEigen (some w2)) .imperfMode (some w3))
      .autoPlate (some w4) := by
    rw [hp4, hp3, hp2, hp1]
  -- facts about p4: values of non-int fields come from the backfill stage
  have hother : ∀ g : FieldName, g ≠ .nSeg → g ≠ .numEigen →
      g ≠ .imperfMode → g ≠ .autoPlate →
      p4 g = (backfillParams (row.foldl normStep defaultParams)) g := by
    intro g hg1 hg2 hg3 hg4
    rw [hpdef, Function.update_noteq hg4, Function.update_noteq hg3,
      Function.update_noteq hg2, Function.update_noteq hg1]
  -- fixedness of p4
  have hfix : ∀ f v, p4 f = some v → _to_number v = v := by
    intro f v h
    have hint : ∀ z : PVal, (∃ n : ℤ, z = .num ((n : ℤ) : ℚ)) →
        some z = some v → _to_number v = v := by
      rintro z ⟨n, rfl⟩ hz
      rw [← Option.some.inj hz]
      rfl
    rw [hpdef] at h
    by_cases h4 : f = .autoPlate
    · subst h4; rw [Function.update_same] at h
      exact hint w4 (pyIntCoerce_shape _ _ hw4) h
    · rw [Function.update_noteq h4] at h
      by_cases h3 : f = .imperfMode
      · subst h3; rw [Function.update_same] at h
        exact hint w3 (pyIntCoerce_shape _ _ hw3) h
      · rw [Function.update_noteq h3] at h
        by_cases h2 : f = .numEigen
        · subst h2; rw [Function.update_same] at h
          exact hint w2 (pyIntCoerce_shape _ _ hw2) h
        · rw [Function.update_noteq h2] at h
          by_cases h1 : f = .nSeg
          · subst h1; rw [Function.update_same] at h
            exact hint w1 (pyIntCoerce_shape _ _ hw1) h
          · rw [Function.update_noteq h1] at h
            exact hbfix f v h
  -- extras absent in p4
  have hext : ∀ g ∈ extraFields, p4 g = none := by
    intro g hg
    have hne : g ≠ FieldName.nSeg ∧ g ≠ FieldName.numEigen ∧
        g ≠ FieldName.imperfMode ∧ g ≠ FieldName.autoPlate ∧
        g ≠ FieldName.fy_web ∧ g ≠ FieldName.fu_web ∧
        g ≠ FieldName.eps_u_web ∧ g ≠ FieldName.fy_flg ∧
        g ≠ FieldName.fu_flg ∧ g ≠ FieldName.eps_u_flg ∧
        g ≠ FieldName.E_web ∧ g ≠ FieldName.E_flg := by
      revert hg
      revert g
      decide
    obtain ⟨n1, n2, n3, n4, m1, m2, m3, m4, m5, m6, m7, m8⟩ := hne
    rw [hother g n1 n2 n3 n4,
      backfill_other _ g m1 m2 m3 m4 m5 m6 m7 m8]
    exact foldl_extras row hrow defaultParams (extra_defaults_none) g hg
  -- canonical fields present in p4
  have hcan : ∀ f ∈ canonFields, (p4 f).isSome := by
    intro f hf
    have hupd : ∀ (q : Params) (g : FieldName) (w : PVal),
        (q f).isSome → ((Function.update q g (some w)) f).isSome := by
      intro q g w hq
      by_cases he : f = g
      · subst he; rw [Function.update_same]; rfl
      · rw [Function.update_noteq he]; exact hq
    rw [hpdef]
    apply hupd; apply hupd; apply hupd; apply hupd
    exact backfill_mono _ f (foldl_mono row defaultParams f
      (canon_defaults_isSome f hf))
  -- the back-fill invariants transported to p4
  have hbf := backfill_facts (row.foldl normStep defaultParams)
  have hno : ∀ g : FieldName, g ≠ .nSeg → g ≠ .numEigen →
      g ≠ .imperfMode → g ≠ .autoPlate →
      isNoneGet p4 g =
        isNoneGet (backfillParams (row.foldl normStep defaultParams)) g := by
    intro g hg1 hg2 hg3 hg4
    unfold isNoneGet
    rw [hother g hg1 hg2 hg3 hg4]
  -- Phase B: the second pass
  show ((coerceIntField (backfillParams
      ((toRow p4).foldl normStep defaultParams)) .nSeg).bind
      fun q1 => (coerceIntField q1 .numEigen).bind
      fun q2 => (coerceIntField q2 .imperfMode).bind
      fun q3 => (coerceIntField q3 .autoPlate).bind
      fun q4 => some q4) = some p4
  rw [renorm_fold p4 hext hcan hfix]
  rw [backfill_fixpoint p4
    (by rw [hno _ (by decide) (by decide) (by decide) (by decide),
          hno _ (by decide) (by decide) (by decide) (by decide)]
        exact hbf.1)
    (by rw [hno _ (by decide) (by decide) (by decide) (by decide),
          hno _ (by decide) (by decide) (by decide) (by decide)]
        exact hbf.2.1)
    (by rw [hno _ (by decide) (by decide) (by decide) (by decide),
          hno _ (by decide) (by decide) (by decide) (by decide)]
        exact hbf.2.2.1)
    (by rw [hno _ (by decide) (by decide) (by decide) (by decide)]
        exact hbf.2.2.2.1)
    (by rw [hno _ (by decide) (by decide) (by decide) (by decide)]
        exact hbf.2.2.2.2.1)
    (by rw [hno _ (by decide) (by decide) (by decide) (by decide)]
        exact hbf.2.2.2.2.2.1)
    (by rw [hno _ (by decide) (by decide) (by decide) (by decide)]
        exact hbf.2.2.2.2.2.2.1)
    (by rw [hno _ (by decide) (by decide) (by decide) (by decide)]
        exact hbf.2.2.2.2.2.2.2)]
  -- the four coercions are now identities
  have hcoer : ∀ (f : FieldName) (n : ℤ), p4 f = some (.num ((n : ℤ) : ℚ)) →
      coerceIntField p4 f = some p4 := by
    intro f n hf
    unfold coerceIntField
    rw [hf]
    show ((pyIntCoerce (.num ((n : ℤ) : ℚ))).map
      fun w => Function.update p4 f (some w)) = some p4
    rw [show pyIntCoerce (.num ((n : ℤ) : ℚ))
        = some (.num (((pyTrunc ((n : ℤ) : ℚ)) : ℤ) : ℚ)) from rfl,
      pyTrunc_intCast]
    simp only [Option.map_some']
    rw [← hf, Function.update_eq_self]
  -- the stored int-field values
  have hn1 : ∃ n : ℤ, p4 .nSeg = some (.num ((n : ℤ) : ℚ)) := by
    obtain ⟨n, rfl⟩ := pyIntCoerce_shape _ _ hw1
    exact ⟨n, by rw [hpdef, Function.update_noteq (by decide),
      Function.update_noteq (by decide), Function.update_noteq (by decide),
      Function.update_same]⟩
  have hn2 : ∃ n : ℤ, p4 .numEigen = some (.num ((n : ℤ) : ℚ)) := by
    obtain ⟨n, rfl⟩ := pyIntCoerce_shape _ _ hw2
    exact ⟨n, by rw [hpdef, Function.update_noteq (by decide),
      Function.update_noteq (by decide), Function.update_same]⟩
  have hn3 : ∃ n : ℤ, p4 .imperfMode = some (.num ((n : ℤ) : ℚ)) := by
    obtain ⟨n, rfl⟩ := pyIntCoerce_shape _ _ hw3
    exact ⟨n, by rw [hpdef, Function.update_noteq (by decide),
      Function.update_same]⟩
  have hn4 : ∃ n : ℤ, p4 .autoPlate = some (.num ((n : ℤ) : ℚ)) := by
    obtain ⟨n, rfl⟩ := pyIntCoerce_shape _ _ hw4
    exact ⟨n, by rw [hpdef, Function.update_same]⟩
  obtain ⟨m1, he1⟩ := hn1
  obtain ⟨m2, he2⟩ := hn2
  obtain ⟨m3, he3⟩ := hn3
  obtain ⟨m4, he4⟩ := hn4
  rw [hcoer .nSeg m1 he1]
  simp only [Option.some_bind]
  rw [hcoer .numEigen m2 he2]
  simp only [Option.some_bind]
  rw [hcoer .imperfMode m3 he3]
  simp only [Option.some_bind]
  rw [hcoer .autoPlate m4 he4]
  rfl

/-- C8 witness: the idempotency equation applied to the empty row (the
default parameter record). -/
theorem normalize_idempotent_witness :
    normalize_params (toRow ((normalize_params []).getD defaultParams)) =
      some ((normalize_params []).getD defaultParams) := by
  have hs : (normalize_params []).isSome = true := by decide
  have he : normalize_params [] =
      some ((normalize_params []).getD defaultParams) := by
    cases h : normalize_params [] with
    | none => rw [h] at hs; simp at hs
    | some q => rfl
  exact normalize_idempotent_amended [] _ he (by simp)

/-- C9 amended: normalize raises exactly when the `int()` coercion of one of
the four int-typed fields — `nSeg`, `numEigen`, `imperfMode`, `autoPlate` —
fails on the merged, back-filled record (value `None` or a non-integer
string after number coercion); positivity of the segment count is never
checked: a numeric segment count never raises, whatever its sign. -/
theorem normalize_error_amended (row : List (String × PVal)) :
    (normalize_params row = none ↔
      ((backfillParams (row.foldl normStep defaultParams)) .nSeg).bind
          pyIntCoerce = none ∨
      ((backfillParams (row.foldl normStep defaultParams)) .numEigen).bind
          pyIntCoerce = none ∨
      ((backfillParams (row.foldl normStep defaultParams)) .imperfMode).bind
          pyIntCoerce = none ∨
      ((backfillParams (row.foldl normStep defaultParams)) .autoPlate).bind
          pyIntCoerce = none) ∧
    ∀ q : ℚ, (pyIntCoerce (PVal.num q)).isSome = true := by
  constructor
  · show ((coerceIntField
        (backfillParams (row.foldl normStep defaultParams)) .nSeg).bind
        fun p1 => (coerceIntField p1 .numEigen).bind
        fun p2 => (coerceIntField p2 .imperfMode).bind
        fun p3 => (coerceIntField p3 .autoPlate).bind
        fun p4 => some p4) = none ↔ _
    cases hc1 : coerceIntField
        (backfillParams (row.foldl normStep defaultParams)) .nSeg with
    | none =>
        simp only [Option.none_bind]
        exact iff_of_true trivial (Or.inl ((coerce_none_iff _ _).mp hc1))
    | some p1 =>
        simp only [Option.some_bind]
        have inv1 := coerce_inv _ _ _ hc1
        have hbind1 : ¬ ((backfillParams (row.foldl normStep defaultParams))
            .nSeg).bind pyIntCoerce = none := by
          obtain ⟨v, w, hv, hw, -⟩ := inv1
          rw [hv, Option.some_bind, hw]
          simp
        obtain ⟨-, w1, -, -, hp1⟩ := inv1
        have e1 : ∀ g : FieldName, g ≠ .nSeg →
            p1 g = (backfillParams (row.foldl normStep defaultParams)) g := by
          intro g hg
          rw [hp1, Function.update_noteq hg]
        cases hc2 : coerceIntField p1 .numEigen with
        | none =>
            simp only [Option.none_bind]
            refine iff_of_true trivial (Or.inr (Or.inl ?_))
            rw [← e1 .numEigen (by decide)]
            exact (coerce_none_iff _ _).mp hc2
        | some p2 =>
            simp only [Option.some_bind]
            have inv2 := coerce_inv _ _ _ hc2
            have hbind2 : ¬ ((backfillParams
                (row.foldl normStep defaultParams)) .numEigen).bind
                pyIntCoerce = none := by
              obtain ⟨v, w, hv, hw, -⟩ := inv2
              rw [← e1 .numEigen (by decide), hv, Option.some_bind, hw]
              simp
            obtain ⟨-, w2, -, -, hp2⟩ := inv2
            have e2 : ∀ g : FieldName, g ≠ .numEigen → g ≠ .nSeg →
                p2 g = (backfillParams (row.foldl normStep defaultParams))
                  g := by
              intro g hg2 hg1
              rw [hp2, Function.update_noteq hg2, e1 g hg1]
            cases hc3 : coerceIntField p2 .imperfMode with
            | none =>
                simp only [Option.none_bind]
                refine iff_of_true trivial (Or.inr (Or.inr (Or.inl ?_)))
                rw [← e2 .imperfMode (by decide) (by decide)]
                exact (coerce_none_iff _ _).mp hc3
            | some p3 =>
                simp only [Option.some_bind]
                have inv3 := coerce_inv _ _ _ hc3
                have hbind3 : ¬ ((backfillParams
                    (row.foldl normStep defaultParams)) .imperfMode).bind
                    pyIntCoerce = none := by
                  obtain ⟨v, w, hv, hw, -⟩ := inv3
                  rw [← e2 .imperfMode (by decide) (by decide), hv,
                    Option.some_bind, hw]
                  simp
                obtain ⟨-, w3, -, -, hp3⟩ := inv3
                have e3 : ∀ g : FieldName, g ≠ .imperfMode → g ≠ .numEigen →
                    g ≠ .nSeg → p3 g =
                    (backfillParams (row.foldl normStep defaultParams))
                      g := by
                  intro g hg3 hg2 hg1
                  rw [hp3, Function.update_noteq hg3, e2 g hg2 hg1]
                cases hc4 : coerceIntField p3 .autoPlate with
                | none =>
                    simp only [Option.none_bind]
                    refine iff_of_true trivial (Or.inr (Or.inr (Or.inr ?_)))
                    rw [← e3 .autoPlate (by decide) (by decide) (by decide)]
                    exact (coerce_none_iff _ _).mp hc4
                | some p4 =>
                    simp only [Option.some_bind]
                    have hbind4 : ¬ ((backfillParams
                        (row.foldl normStep defaultParams)) .autoPlate).bind
                        pyIntCoerce = none := by
                      obtain ⟨v, w, hv, hw, -⟩ := coerce_inv _ _ _ hc4
                      rw [← e3 .autoPlate (by decide) (by decide) (by decide),
                        hv, Option.some_bind, hw]
                      simp
                    refine iff_of_false (by simp) ?_
                    rintro (h | h | h | h)
                    · exact hbind1 h
                    · exact hbind2 h
                    · exact hbind3 h
                    · exact hbind4 h
  · intro q
    rfl
